import Mathlib

/-!
Verification of the `koreader-lua-to-markdown` converter
(`src/koreader_lua_to_markdown.py`).

The Python source is shallowly embedded below.  Strings are modelled over
`List Char`; the Unicode-aware Python character classes (`\s`, `\d`, `\w`,
`str.strip`, `str.lower`) are modelled on their ASCII fragment, which covers
every string the program's own templates and the spec's examples use.
`datetime.now()` is modelled by passing the pre-rendered current clock strings
as explicit parameters.  Python exceptions that escape a function are modelled
with `Except`; exceptions caught inside a function are handled in place.
-/

set_option maxHeartbeats 1000000
set_option maxRecDepth 100000

namespace Koreader

/-- ASCII fragment of the whitespace class used by Python's `str.strip`,
`str.split` and the regex class `\s`. -/
def pyIsSpace (c : Char) : Bool :=
  c = ' ' || c = '\t' || c = '\n' || c = '\r' || c = '\x0b' || c = '\x0c'

/-- ASCII fragment of Python's regex class `\d`. -/
def pyIsDigit (c : Char) : Bool := '0' ≤ c && c ≤ '9'

/-- Python `str.strip()` on a character list: drop leading and trailing whitespace. -/
def pyStripL (cs : List Char) : List Char :=
  ((cs.dropWhile pyIsSpace).reverse.dropWhile pyIsSpace).reverse

/-- Python `str.strip()`. -/
def pyStripStr (s : String) : String := String.mk (pyStripL s.data)

/-- The two classes of exception `str.format` can raise in this program:
a missing named field (KeyError, caught by `format_template`) and everything
else (ValueError/IndexError, which `format_template` does not catch). -/
inductive FmtErr where
  | keyError
  | valueError
deriving DecidableEq

/-- First-occurrence association-list lookup (Python dict lookup; the dicts the
source builds have unique keys). -/
def lookupKV (m : List (String × String)) (k : String) : Option String :=
  match m with
  | [] => none
  | (k2, v) :: rest => if k2 = k then some v else lookupKV rest k

/-- A replacement-field body parses as `arg_name ("." attr | "[" idx)* ("!" conv)?
(":" spec)?`; the name looked up in the kwargs is the leading `arg_name`. -/
def fieldArgName (body : List Char) : List Char :=
  (body.takeWhile (fun c => c ≠ '!' ∧ c ≠ ':')).takeWhile (fun c => c ≠ '.' ∧ c ≠ '[')

/-- The scanner behind Python `str.format`, on the fragment the source uses:
literal text, the `{{` / `}}` escapes and named replacement fields.
State `none` is literal text; `some acc` is inside a field with the reversed
body accumulated in `acc`.  A lone `}`, an unclosed field, a `{` inside a field
or a positional (empty or all-digit) name raises an error `format_template`
does not catch (`valueError` here); a named field whose `arg_name` is absent
from the mapping raises `keyError` (also when the field carries a conversion,
spec or attribute chain — the lookup happens first).  A present field that is
not a plain name (conversion/spec/attribute, never produced by this program's
templates) is outside the modelled fragment and mapped to `valueError`. -/
def pyFormatGo (m : List (String × String)) :
    List Char → Option (List Char) → Except FmtErr (List Char)
  | [], none => .ok []
  | [], some _ => .error .valueError
  | c :: rest, none =>
      if c = '{' then
        match rest with
        | [] => .error .valueError
        | c2 :: rest2 =>
            if c2 = '{' then (fun r => '{' :: r) <$> pyFormatGo m rest2 none
            else pyFormatGo m (c2 :: rest2) (some [])
      else if c = '}' then
        match rest with
        | [] => .error .valueError
        | c2 :: rest2 =>
            if c2 = '}' then (fun r => '}' :: r) <$> pyFormatGo m rest2 none
            else .error .valueError
      else (fun r => c :: r) <$> pyFormatGo m rest none
  | c :: rest, some acc =>
      if c = '}' then
        if acc.contains '{' then .error .valueError
        else if (fieldArgName acc.reverse).isEmpty ∨ (fieldArgName acc.reverse).all pyIsDigit then
          .error .valueError
        else
          match lookupKV m (String.mk (fieldArgName acc.reverse)) with
          | none => .error .keyError
          | some v =>
              if fieldArgName acc.reverse = acc.reverse then
                (fun r => v.data ++ r) <$> pyFormatGo m rest none
              else .error .valueError
      else pyFormatGo m rest (some (c :: acc))

/-- The special pre-formatting `format_template` applies to its kwargs:
a truthy `page` becomes ` (Seite v)`, a truthy `time` becomes ` @ v`. -/
def preprocessKwargs (m : List (String × String)) : List (String × String) :=
  m.map (fun kv =>
    if kv.1 = "page" ∧ kv.2 ≠ "" then (kv.1, " (Seite " ++ kv.2 ++ ")")
    else if kv.1 = "time" ∧ kv.2 ≠ "" then (kv.1, " @ " ++ kv.2)
    else kv)

/-- A line survives the post-substitution cleanup loop of `format_template` iff
this returns `true`.  Mirrors the source condition
`not line.strip().endswith(':') or not line.strip().endswith(': ')` exactly. -/
def keepLine (line : List Char) : Bool :=
  !(List.isSuffixOf [':'] (pyStripL line)) || !(List.isSuffixOf [':', ' '] (pyStripL line))

/-- Python `str.split` with a one-character separator: split at every
occurrence, keeping empty parts. -/
def splitCh (sep : Char) : List Char → List (List Char)
  | [] => [[]]
  | c :: rest =>
      if c = sep then [] :: splitCh sep rest
      else
        match splitCh sep rest with
        | [] => [[c]]
        | part :: parts => (c :: part) :: parts

/-- Python `sep.join` for a one-character separator. -/
def joinCh (sep : Char) : List (List Char) → List Char
  | [] => []
  | [part] => part
  | part :: parts => part ++ sep :: joinCh sep parts

/-- The source's `format_template`: pre-format the `page`/`time` kwargs, run
the substitution, keep the lines the cleanup loop keeps, and on a missing
placeholder (KeyError) return the template unchanged.  `Except.error` is an
exception escaping the function. -/
def format_template (template : String) (kwargs : List (String × String)) :
    Except Unit String :=
  match pyFormatGo (preprocessKwargs kwargs) template.data none with
  | .ok result => .ok (String.mk (joinCh '\n' ((splitCh '\n' result).filter keepLine)))
  | .error .keyError => .ok template
  | .error .valueError => .error ()

/-- Same scanner as `pyFormatGo`, but collecting the referenced field names.
`none` on any template that is not made of literal text, escapes and plain
named fields only — i.e. on any template whose rendering could raise something
other than a KeyError. -/
def scanNamesGo : List Char → Option (List Char) → Option (List String)
  | [], none => some []
  | [], some _ => none
  | c :: rest, none =>
      if c = '{' then
        match rest with
        | [] => none
        | c2 :: rest2 =>
            if c2 = '{' then scanNamesGo rest2 none
            else scanNamesGo (c2 :: rest2) (some [])
      else if c = '}' then
        match rest with
        | [] => none
        | c2 :: rest2 => if c2 = '}' then scanNamesGo rest2 none else none
      else scanNamesGo rest none
  | c :: rest, some acc =>
      if c = '}' then
        if acc.contains '{' ∨ acc.reverse ≠ fieldArgName acc.reverse ∨
            (fieldArgName acc.reverse).isEmpty ∨ (fieldArgName acc.reverse).all pyIsDigit then
          none
        else (fun ns => String.mk acc.reverse :: ns) <$> scanNamesGo rest none
      else scanNamesGo rest (some (c :: acc))

/-- The placeholder names a (structurally well-formed) template references. -/
def scanNames (template : String) : Option (List String) :=
  scanNamesGo template.data none

/-- Python `str.split()` with no arguments: split on whitespace runs,
discarding empty tokens. -/
def splitWsGo : List Char → List Char → List (List Char)
  | [], acc => if acc.isEmpty then [] else [acc.reverse]
  | c :: rest, acc =>
      if pyIsSpace c then
        if acc.isEmpty then splitWsGo rest []
        else acc.reverse :: splitWsGo rest []
      else splitWsGo rest (c :: acc)

/-- Python `str.split()`. -/
def pySplitWs (cs : List Char) : List (List Char) := splitWsGo cs []

/-- Python `parts[-1]` on a list known nonempty at the use site. -/
def lastD (l : List (List Char)) : List Char := l.getLast?.getD []

/-- The source's `parse_author_name`: split on the first comma when one is
present (`split(',', 1)`, both parts stripped), otherwise on whitespace
(`split()`) with the last token as the last name and the rest joined by single
spaces as the first name; both outputs are stripped on return. -/
def parse_author_name (author_text : String) : String × String :=
  if author_text.data.contains ',' then
    let left := author_text.data.takeWhile (fun c => c ≠ ',')
    let right := (author_text.data.dropWhile (fun c => c ≠ ',')).tail
    (String.mk (pyStripL (pyStripL left)), String.mk (pyStripL (pyStripL right)))
  else
    let parts := pySplitWs (pyStripL author_text.data)
    if parts.length > 1 then
      (String.mk (pyStripL (lastD parts)),
       String.mk (pyStripL (joinCh ' ' parts.dropLast)))
    else
      (String.mk (pyStripL author_text.data), "")

/-- ASCII fragment of Python's regex class `\w`. -/
def pyIsWord (c : Char) : Bool := c.isAlpha || c.isDigit || c = '_'

/-- One pass of `re.sub(r'[\s]+', '-', text)`: every maximal whitespace run
becomes a single hyphen.  The flag records whether the previous character was
inside a whitespace run. -/
def collapseWsGo : List Char → Bool → List Char
  | [], _ => []
  | c :: rest, inRun =>
      if pyIsSpace c then
        if inRun then collapseWsGo rest true else '-' :: collapseWsGo rest true
      else c :: collapseWsGo rest false

/-- The source's `slugify`: lower-case, delete everything outside
`\w`, `\s` and `-`, collapse whitespace runs to hyphens, strip outer hyphens. -/
def slugify (text : String) : String :=
  let lowered := text.data.map Char.toLower
  let kept := lowered.filter (fun c => pyIsWord c || pyIsSpace c || c = '-')
  let hyphened := collapseWsGo kept false
  String.mk (((hyphened.dropWhile (fun c => c = '-')).reverse.dropWhile
    (fun c => c = '-')).reverse)

/-- Numeric value of a decimal digit character. -/
def digitVal (c : Char) : Nat := c.toNat - 48

/-- The decimal digit character for `d < 10`. -/
def digitChar (d : Nat) : Char := Char.ofNat (48 + d)

/-- Zero-padded two-digit rendering (`strftime` `%m`, `%d`, `%H`, `%M`, `%y`). -/
def pad2 (n : Nat) : List Char := [digitChar (n / 10 % 10), digitChar (n % 10)]

/-- Zero-padded four-digit rendering (`strftime` `%Y`, modelled zero-padded; every
datetime the parser accepts has a four-digit year). -/
def pad4 (n : Nat) : List Char :=
  [digitChar (n / 1000 % 10), digitChar (n / 100 % 10), digitChar (n / 10 % 10),
   digitChar (n % 10)]

/-- CPython `_strptime` directive `%Y`: exactly four digits. -/
def parseYear4 : List Char → Option (Nat × List Char)
  | a :: b :: c :: d :: rest =>
      if pyIsDigit a ∧ pyIsDigit b ∧ pyIsDigit c ∧ pyIsDigit d then
        some (((digitVal a * 10 + digitVal b) * 10 + digitVal c) * 10 + digitVal d, rest)
      else none
  | _ => none

/-- A required literal character in the format. -/
def expectCh (c : Char) : List Char → Option (List Char)
  | c2 :: rest => if c2 = c then some rest else none
  | _ => none

/-- Whitespace in the format string matches `\s+`. -/
def expectWs (cs : List Char) : Option (List Char) :=
  match cs with
  | c :: rest => if pyIsSpace c then some (rest.dropWhile pyIsSpace) else none
  | [] => none

/-- Directive `%m`, i.e. `(1[0-2]|0[1-9]|[1-9])`.  The regex alternation is deterministic
here because every two-digit branch leaves a digit as the next character, where
the format then requires a non-digit delimiter, so backtracking to a shorter
branch can never succeed when a longer one matched. -/
def parseMonth : List Char → Option (Nat × List Char)
  | c0 :: c1 :: rest =>
      if c0 = '1' ∧ '0' ≤ c1 ∧ c1 ≤ '2' then some (10 + digitVal c1, rest)
      else if c0 = '0' ∧ '1' ≤ c1 ∧ c1 ≤ '9' then some (digitVal c1, rest)
      else if '1' ≤ c0 ∧ c0 ≤ '9' then some (digitVal c0, c1 :: rest)
      else none
  | [c0] => if '1' ≤ c0 ∧ c0 ≤ '9' then some (digitVal c0, []) else none
  | [] => none

/-- Directive `%d`, i.e. `(3[01]|[12]\d|0[1-9]|[1-9])`. -/
def parseDay : List Char → Option (Nat × List Char)
  | c0 :: c1 :: rest =>
      if c0 = '3' ∧ '0' ≤ c1 ∧ c1 ≤ '1' then some (30 + digitVal c1, rest)
      else if ('1' ≤ c0 ∧ c0 ≤ '2') ∧ pyIsDigit c1 then
        some (digitVal c0 * 10 + digitVal c1, rest)
      else if c0 = '0' ∧ '1' ≤ c1 ∧ c1 ≤ '9' then some (digitVal c1, rest)
      else if '1' ≤ c0 ∧ c0 ≤ '9' then some (digitVal c0, c1 :: rest)
      else none
  | [c0] => if '1' ≤ c0 ∧ c0 ≤ '9' then some (digitVal c0, []) else none
  | [] => none

/-- Directive `%H`, i.e. `(2[0-3]|[0-1]\d|\d)`. -/
def parseHour : List Char → Option (Nat × List Char)
  | c0 :: c1 :: rest =>
      if c0 = '2' ∧ '0' ≤ c1 ∧ c1 ≤ '3' then some (20 + digitVal c1, rest)
      else if ('0' ≤ c0 ∧ c0 ≤ '1') ∧ pyIsDigit c1 then
        some (digitVal c0 * 10 + digitVal c1, rest)
      else if pyIsDigit c0 then some (digitVal c0, c1 :: rest)
      else none
  | [c0] => if pyIsDigit c0 then some (digitVal c0, []) else none
  | [] => none

/-- Directive `%M`, i.e. `([0-5]\d|\d)`. -/
def parseMinute : List Char → Option (Nat × List Char)
  | c0 :: c1 :: rest =>
      if ('0' ≤ c0 ∧ c0 ≤ '5') ∧ pyIsDigit c1 then
        some (digitVal c0 * 10 + digitVal c1, rest)
      else if pyIsDigit c0 then some (digitVal c0, c1 :: rest)
      else none
  | [c0] => if pyIsDigit c0 then some (digitVal c0, []) else none
  | [] => none

/-- Directive `%S`, i.e. `(6[0-1]|[0-5]\d|\d)` (leap seconds pass the regex but are
rejected by the `datetime` constructor below). -/
def parseSecond : List Char → Option (Nat × List Char)
  | c0 :: c1 :: rest =>
      if c0 = '6' ∧ '0' ≤ c1 ∧ c1 ≤ '1' then some (60 + digitVal c1, rest)
      else if ('0' ≤ c0 ∧ c0 ≤ '5') ∧ pyIsDigit c1 then
        some (digitVal c0 * 10 + digitVal c1, rest)
      else if pyIsDigit c0 then some (digitVal c0, c1 :: rest)
      else none
  | [c0] => if pyIsDigit c0 then some (digitVal c0, []) else none
  | [] => none

/-- Gregorian leap year, as in Python's `calendar`/`datetime`. -/
def isLeap (y : Nat) : Bool := y % 4 = 0 ∧ (y % 100 ≠ 0 ∨ y % 400 = 0)

/-- Days in a month, as validated by the `datetime` constructor. -/
def daysInMonth (y m : Nat) : Nat :=
  if m = 2 then (if isLeap y then 29 else 28)
  else if m = 4 ∨ m = 6 ∨ m = 9 ∨ m = 11 then 30
  else 31

/-- Model of `datetime.strptime(s, "%Y-%m-%d %H:%M:%S")`: run the compiled format regex
anchored at the start, require all input consumed ("unconverted data remains"
otherwise), then the `datetime` constructor's range checks (year at least 1,
valid day of month, seconds below 60).  `none` models ValueError. -/
def pyStrptime (cs : List Char) : Option (Nat × Nat × Nat × Nat × Nat × Nat) := do
  let (y, cs) ← parseYear4 cs
  let cs ← expectCh '-' cs
  let (mo, cs) ← parseMonth cs
  let cs ← expectCh '-' cs
  let (d, cs) ← parseDay cs
  let cs ← expectWs cs
  let (h, cs) ← parseHour cs
  let cs ← expectCh ':' cs
  let (mi, cs) ← parseMinute cs
  let cs ← expectCh ':' cs
  let (s, cs) ← parseSecond cs
  if cs = [] ∧ 1 ≤ y ∧ d ≤ daysInMonth y mo ∧ s ≤ 59 then
    some (y, mo, d, h, mi, s)
  else none

/-- The source's `parse_bookmark_datetime`.  `now` is the pre-rendered
`datetime.now().strftime("%y%m%d%H%M")` of the fallback path. -/
def parse_bookmark_datetime (now : String) (datetime_str : String) : String :=
  match pyStrptime datetime_str.data with
  | some (y, mo, d, h, mi, _) =>
      String.mk (pad2 (y % 100) ++ pad2 mo ++ pad2 d ++ pad2 h ++ pad2 mi)
  | none => now

/-- The source's `format_date_for_yaml`.  `nowDate` is the pre-rendered
`datetime.now().strftime("%Y-%m-%d")` of the fallback path. -/
def format_date_for_yaml (nowDate : String) (datetime_str : String) : String :=
  match pyStrptime datetime_str.data with
  | some (y, mo, d, _, _, _) =>
      String.mk (pad4 y ++ '-' :: pad2 mo ++ '-' :: pad2 d)
  | none => nowDate

/-- The result shape of `parse_annotation_text`: the source initialises all
three fields to strings (empty for absent parts). -/
structure AnnotationParts where
  page : String
  text : String
  timestamp : String
deriving DecidableEq, Repr

/-- Model of `re.match(r'Page\s+(\d+)\s+(.*)', s)`: anchored at the start, each `\s+`
and `\d+` takes its maximal run (the following atom is from a disjoint class,
so regex backtracking can never shorten them), and `(.*)` runs to the next
newline or the end.  Returns `(digit group, group 2)`. -/
def pageMatch (cs : List Char) : Option (List Char × List Char) :=
  match cs with
  | 'P' :: 'a' :: 'g' :: 'e' :: rest =>
      if rest.takeWhile pyIsSpace = [] then none
      else
        let r1 := rest.dropWhile pyIsSpace
        let ds := r1.takeWhile pyIsDigit
        if ds = [] then none
        else
          let r2 := r1.dropWhile pyIsDigit
          if r2.takeWhile pyIsSpace = [] then none
          else some (ds, ((r2.dropWhile pyIsSpace).takeWhile (fun c => c ≠ '\n')))
  | _ => none

/-- Whether an entire string is `\d{4}-\d{2}-\d{2}\s+\d{2}:\d{2}:\d{2}` —
the timestamp group of the annotation suffix search. -/
def isDateTimeGroup (cs : List Char) : Bool :=
  match cs with
  | y1 :: y2 :: y3 :: y4 :: '-' :: m1 :: m2 :: '-' :: d1 :: d2 :: rest =>
      pyIsDigit y1 && pyIsDigit y2 && pyIsDigit y3 && pyIsDigit y4 &&
      pyIsDigit m1 && pyIsDigit m2 && pyIsDigit d1 && pyIsDigit d2 &&
      !(rest.takeWhile pyIsSpace).isEmpty &&
      (match rest.dropWhile pyIsSpace with
       | [h1, h2, ':', n1, n2, ':', s1, s2] =>
           pyIsDigit h1 && pyIsDigit h2 && pyIsDigit n1 && pyIsDigit n2 &&
           pyIsDigit s1 && pyIsDigit s2
       | _ => false)
  | _ => false

/-- Whether a suffix of the remainder matches
`\s+@\s+(\d{4}-\d{2}-\d{2}\s+\d{2}:\d{2}:\d{2})$` in its entirety, returning
the timestamp group.  Again each `\s+` is forced to its maximal run because
`@` and `\d` are not whitespace. -/
def matchSuffixTs (t : List Char) : Option (List Char) :=
  if t.takeWhile pyIsSpace = [] then none
  else
    match t.dropWhile pyIsSpace with
    | '@' :: r2 =>
        if r2.takeWhile pyIsSpace = [] then none
        else
          let r3 := r2.dropWhile pyIsSpace
          if isDateTimeGroup r3 then some r3 else none
    | _ => none

/-- The effect of `re.search(r'(.*)\s+@\s+(TS)$', remainder)` with a greedy
leading `(.*)`: the split point is the largest prefix whose complement matches
the suffix pattern in full.  Preferring the deeper (further-right) split first
realises exactly that. -/
def findSplit : List Char → Option (List Char × List Char)
  | [] => none
  | c :: rest =>
      match findSplit rest with
      | some (pre, ts) => some (c :: pre, ts)
      | none =>
          match matchSuffixTs (c :: rest) with
          | some ts => some ([], ts)
          | none => none

/-- The source's `parse_annotation_text`. -/
def parse_annotation_text (annotation_text : String) : AnnotationParts :=
  match pageMatch annotation_text.data with
  | none => ⟨"", annotation_text, ""⟩
  | some (ds, remaining) =>
      match findSplit remaining with
      | some (pre, ts) => ⟨String.mk ds, String.mk (pyStripL pre), String.mk ts⟩
      | none => ⟨String.mk ds, String.mk (pyStripL remaining), ""⟩

/-- One bookmark record as extracted from the decoded Lua table.  Absent keys
are `none`; the values of the keys the source reads are strings. -/
structure Bookmark where
  notes : Option String
  text : Option String
  datetime : Option String
deriving DecidableEq, Repr

/-- The decoded metadata tree, flattened to the fields the source reads.  An
absent `stats`/`summary` table behaves exactly like one with its keys absent,
and an absent `bookmarks` table like an empty one (the source defaults it to
`{}`, which lists to `[]`), so they are modelled that way.  `rating` is the
string form the substitution would insert. -/
structure Metadata where
  title : Option String
  authors : Option String
  rating : Option String
  summary_note : Option String
  bookmarks : List Bookmark
deriving DecidableEq, Repr

/-- Shape of `RenderConfig`: the two merged sections, each a key-value table. -/
structure Config where
  output : List (String × String)
  templates : List (String × String)
deriving DecidableEq, Repr

/-- The source's `DEFAULT_CONFIG`. -/
def DEFAULT_CONFIG : Config where
  output := [("filename_template", "{timestamp}.md")]
  templates :=
    [("yaml_frontmatter",
      "---\ntags: [buch, gelesen, highlights]\ntitle: {title}\nauthor: {lastname}, {firstname}{rating}{note}{date_created}{date_updated}\n---\n\n"),
     ("intro", "Highlights für das Buch {title} von {firstname} {lastname}"),
     ("summary_note", "> {note}"),
     ("highlight", "> {text}"),
     ("annotation", "Eigener Gedanke{page}: {annotation}{time}"),
     ("separator", "---")]

/-- Lookup of `config['templates'][name]`; a missing key raises a KeyError that the
`generate_markdown` wrapper re-raises as its ValueError. -/
def getTemplate (config : Config) (name : String) : Except Unit String :=
  match lookupKV config.templates name with
  | some t => .ok t
  | none => .error ()

/-- The wall clock, passed in pre-rendered: `ymdhm` is
`datetime.now().strftime("%y%m%d%H%M")` (`generate_timestamp`) and `ymd` is
`datetime.now().strftime("%Y-%m-%d")`. -/
structure NowClock where
  ymdhm : String
  ymd : String
deriving DecidableEq, Repr

/-- Source lines 214–218: `created_at` is the `datetime` of the first bookmark
when that key is present. -/
def created_at_of (bookmarks : List Bookmark) : Option String :=
  match bookmarks.head? with
  | some b => b.datetime
  | none => none

/-- Source lines 220–223: `updated_at` is the `datetime` of the last bookmark
when that key is present. -/
def updated_at_of (bookmarks : List Bookmark) : Option String :=
  match bookmarks.getLast? with
  | some b => b.datetime
  | none => none

/-- Source lines 225–232: the filename timestamp comes from `created_at` when
it is truthy (present and non-empty), else from `generate_timestamp()`. -/
def timestampOf (now : NowClock) (bookmarks : List Bookmark) : String :=
  match created_at_of bookmarks with
  | some dt => if dt ≠ "" then parse_bookmark_datetime now.ymdhm dt else now.ymdhm
  | none => now.ymdhm

/-- A bookmark is rendered iff `notes` is present and non-blank
(the loop `continue`s on `'notes' not in bookmark or not bookmark['notes'].strip()`). -/
def qualifies (b : Bookmark) : Bool :=
  match b.notes with
  | some n => !(pyStripL n.data).isEmpty
  | none => false

/-- One full highlight block, as appended by the loop body for a qualifying
bookmark: rendered highlight, optional rendered annotation line (only when the
bookmark's `text` is present and non-blank), then the separator. -/
def blockFor (config : Config) (b : Bookmark) : Except Unit String := do
  let highlightTpl ← getTemplate config "highlight"
  let h ← format_template highlightTpl [("text", b.notes.getD "")]
  let annPart ←
    match b.text with
    | some t =>
        if pyStripL t.data ≠ [] then do
          let aTpl ← getTemplate config "annotation"
          let ad := parse_annotation_text t
          let a ← format_template aTpl
            [("annotation", AnnotationParts.text ad), ("page", ad.page),
             ("time", ad.timestamp)]
          pure (a ++ "\n\n")
        else pure ""
    | none => pure ""
  let sep ← getTemplate config "separator"
  pure (h ++ "\n\n" ++ annPart ++ sep ++ "\n\n")

/-- The `for bookmark in reversed(bookmark_list)` loop of `generate_markdown`,
already handed the reversed list; skipped bookmarks append nothing. -/
def highlightsContent (config : Config) : List Bookmark → Except Unit String
  | [] => .ok ""
  | b :: rest => do
      let first ← if qualifies b then blockFor config b else pure ""
      let restS ← highlightsContent config rest
      pure (first ++ restS)

/-- The front-matter chunk of `generate_markdown` (source lines 180–250):
field extraction with defaults, the split author name, the positional
`created_at`/`updated_at` datetimes and the rendered `yaml_frontmatter`
template. -/
def renderFrontmatter (now : NowClock) (metadata : Metadata) (config : Config) :
    Except Unit String := do
  let an := parse_author_name (metadata.authors.getD "Unknown Author")
  let yamlTpl ← getTemplate config "yaml_frontmatter"
  format_template yamlTpl
    [("title", metadata.title.getD "Unknown Title"), ("lastname", an.1),
     ("firstname", an.2), ("rating", metadata.rating.getD ""),
     ("note", metadata.summary_note.getD ""),
     ("date_created",
       match created_at_of metadata.bookmarks with
       | some dt => if dt ≠ "" then format_date_for_yaml now.ymd dt else ""
       | none => ""),
     ("date_updated",
       match updated_at_of metadata.bookmarks with
       | some dt => if dt ≠ "" then format_date_for_yaml now.ymd dt else ""
       | none => "")]

/-- The intro chunk of `generate_markdown` (source lines 252–265): the intro
template plus, for a truthy summary note, the rendered note appended after a
blank line; the trailing blank line itself is appended by the assembly step. -/
def renderIntro (metadata : Metadata) (config : Config) : Except Unit String := do
  let an := parse_author_name (metadata.authors.getD "Unknown Author")
  let introTpl ← getTemplate config "intro"
  let intro ← format_template introTpl
    [("title", metadata.title.getD "Unknown Title"), ("firstname", an.2),
     ("lastname", an.1)]
  match metadata.summary_note with
  | some n =>
      if n ≠ "" then do
        let snTpl ← getTemplate config "summary_note"
        let sn ← format_template snTpl [("note", n)]
        pure (intro ++ "\n\n" ++ sn)
      else pure intro
  | none => pure intro

/-- Concatenation of a list of rendered blocks, in order. -/
def concatAll : List String → String
  | [] => ""
  | s :: rest => s ++ concatAll rest

/-- The source's `generate_markdown` (lines 164–310): front matter, intro
text, then the highlight blocks over the reversed bookmark list, stripped of
surrounding whitespace, and the filename timestamp.  Any exception inside the
body is re-raised as ValueError — the one `Except` error. -/
def generate_markdown (now : NowClock) (metadata : Metadata) (config : Config) :
    Except Unit (String × String) := do
  let yaml_frontmatter ← renderFrontmatter now metadata config
  let intro_text ← renderIntro metadata config
  let hc ← highlightsContent config metadata.bookmarks.reverse
  pure (yaml_frontmatter ++ intro_text ++ "\n\n" ++ String.mk (pyStripL hc.data),
    timestampOf now metadata.bookmarks)

/-- What the outside world hands `load_config`: no file at the path, a file
`toml.load` raises on, or a parsed table with its optional `output` and
`templates` sections (no other top-level key is ever read). -/
inductive ConfigSource where
  | missing
  | malformed
  | parsed (output : Option (List (String × String)))
      (templates : Option (List (String × String)))
deriving DecidableEq

/-- One step of Python `dict.update`: an existing key is overwritten in place,
a new key appended. -/
def dictInsert (base : List (String × String)) (kv : String × String) :
    List (String × String) :=
  if base.any (fun p => p.1 = kv.1) then
    base.map (fun p => if p.1 = kv.1 then kv else p)
  else base ++ [kv]

/-- Python `dict.update`: existing keys are overwritten in place, new keys
appended in iteration order. -/
def dictUpdate (base upd : List (String × String)) : List (String × String) :=
  upd.foldl dictInsert base

/-- The source's `load_config`: the defaults when the file is absent or
fails to parse, otherwise the defaults with each supplied section merged in
key-by-key. -/
def load_config (src : ConfigSource) : Config :=
  match src with
  | .missing => DEFAULT_CONFIG
  | .malformed => DEFAULT_CONFIG
  | .parsed out tpl =>
      { output := dictUpdate DEFAULT_CONFIG.output (out.getD []),
        templates := dictUpdate DEFAULT_CONFIG.templates (tpl.getD []) }

/-- The padded rendering of a datetime, `YYYY-MM-DD HH:MM:SS`. -/
def renderYmdHms (y mo d h mi s : Nat) : List Char :=
  pad4 y ++ ('-' :: (pad2 mo ++ ('-' :: (pad2 d ++ (' ' :: (pad2 h ++
    (':' :: (pad2 mi ++ (':' :: pad2 s)))))))))

/-- The literal textual shape `YYYY-MM-DD HH:MM:SS` (four digits, dash, two
digits, dash, two digits, space, two digits, colon, two digits, colon, two
digits), as the spec sentence reads. -/
def isSpecYmdHms (cs : List Char) : Bool :=
  match cs with
  | [y1, y2, y3, y4, '-', m1, m2, '-', d1, d2, ' ', h1, h2, ':', n1, n2, ':', s1, s2] =>
      pyIsDigit y1 && pyIsDigit y2 && pyIsDigit y3 && pyIsDigit y4 &&
      pyIsDigit m1 && pyIsDigit m2 && pyIsDigit d1 && pyIsDigit d2 &&
      pyIsDigit h1 && pyIsDigit h2 && pyIsDigit n1 && pyIsDigit n2 &&
      pyIsDigit s1 && pyIsDigit s2
  | _ => false

/-- A frozen wall clock for the concrete runs below. -/
def nowCex : NowClock := ⟨"NOWTS", "NOWDATE"⟩

/-- Concrete metadata with one blank-notes bookmark between two rendered ones. -/
def metaC2 : Metadata :=
  ⟨some "Sample Book", some "Jane Doe", none, none,
   [⟨some "First highlight", none, some "2023-01-01 10:00:00"⟩,
    ⟨some "   ", none, none⟩,
    ⟨some "Second highlight", some "Page 10 my thought @ 2023-01-02 03:04:00", none⟩]⟩

/-- Concrete metadata whose first bookmark has no datetime while the last one
has a perfectly parseable one. -/
def metaC4 : Metadata :=
  ⟨some "B", some "A", none, none,
   [⟨some "First", none, none⟩,
    ⟨some "Second", none, some "2023-07-04 08:15:00"⟩]⟩

/-! ## Helper lemmas -/

theorem pyStripL_getLast?_not_space (l : List Char) (c : Char)
    (h : (pyStripL l).getLast? = some c) : pyIsSpace c = false := by
  unfold pyStripL at h
  rw [List.getLast?_reverse] at h
  have h2 := List.head?_dropWhile_not pyIsSpace ((l.dropWhile pyIsSpace).reverse)
  rw [h] at h2
  exact h2

theorem pyStripL_head?_not_space (l : List Char) (c : Char)
    (h : (pyStripL l).head? = some c) : pyIsSpace c = false := by
  obtain ⟨t, ht⟩ := List.dropWhile_suffix (l := (l.dropWhile pyIsSpace).reverse) pyIsSpace
  have hA : l.dropWhile pyIsSpace = pyStripL l ++ t.reverse := by
    have h2 := congrArg List.reverse ht
    simp only [List.reverse_append, List.reverse_reverse] at h2
    unfold pyStripL
    exact h2.symm
  have hhead : (l.dropWhile pyIsSpace).head? = some c := by
    rw [hA, List.head?_append, h]
    rfl
  have h3 := List.head?_dropWhile_not pyIsSpace l
  rw [hhead] at h3
  exact h3

theorem keepLine_eq_true (line : List Char) : keepLine line = true := by
  unfold keepLine
  cases hsuf : List.isSuffixOf [':', ' '] (pyStripL line) with
  | false => simp [hsuf]
  | true =>
      exfalso
      have hs : [':', ' '] <:+ pyStripL line := List.isSuffixOf_iff_suffix.mp hsuf
      obtain ⟨t, ht⟩ := hs
      have hlast : (pyStripL line).getLast? = some ' ' := by
        rw [← ht, show t ++ [':', ' '] = (t ++ [':']) ++ [' '] by simp]
        exact List.getLast?_concat _
      have := pyStripL_getLast?_not_space line ' ' hlast
      simp [pyIsSpace] at this

theorem splitCh_ne_nil (sep : Char) (cs : List Char) : splitCh sep cs ≠ [] := by
  cases cs with
  | nil => simp [splitCh]
  | cons c rest =>
      unfold splitCh
      by_cases h : c = sep
      · simp [h]
      · simp only [if_neg h]
        cases splitCh sep rest <;> simp

theorem joinCh_splitCh (sep : Char) (cs : List Char) :
    joinCh sep (splitCh sep cs) = cs := by
  induction cs with
  | nil => rfl
  | cons c rest ih =>
      unfold splitCh
      by_cases h : c = sep
      · simp only [if_pos h]
        cases hs : splitCh sep rest with
        | nil => exact absurd hs (splitCh_ne_nil sep rest)
        | cons part parts =>
            rw [← hs]
            show joinCh sep ([] :: splitCh sep rest) = c :: rest
            rw [hs]
            show [] ++ sep :: joinCh sep (part :: parts) = c :: rest
            rw [← hs, ih, h]
            rfl
      · simp only [if_neg h]
        cases hs : splitCh sep rest with
        | nil => exact absurd hs (splitCh_ne_nil sep rest)
        | cons part parts =>
            cases parts with
            | nil =>
                show c :: part = c :: rest
                have : joinCh sep (splitCh sep rest) = rest := ih
                rw [hs] at this
                simpa using this
            | cons p2 ps =>
                show (c :: part) ++ sep :: joinCh sep (p2 :: ps) = c :: rest
                have : joinCh sep (splitCh sep rest) = rest := ih
                rw [hs] at this
                rw [List.cons_append, this.symm]
                rfl

/-- With every line kept, the cleanup pass of `format_template` is the
identity: a successful substitution is returned verbatim. -/
theorem format_template_eq_of_ok (tpl : String) (kwargs : List (String × String))
    (out : List Char)
    (h : pyFormatGo (preprocessKwargs kwargs) tpl.data none = .ok out) :
    format_template tpl kwargs = .ok (String.mk out) := by
  unfold format_template
  rw [h]
  show Except.ok (String.mk (joinCh '\n' ((splitCh '\n' out).filter keepLine))) = _
  rw [List.filter_eq_self.mpr (fun l _ => keepLine_eq_true l), joinCh_splitCh]

/-! ## Claim C1 -/

/-- Claim C1 (code bug): the cleanup condition of `format_template`,
`not line.strip().endswith(':') or not line.strip().endswith(': ')`, is a
tautology — a stripped line never ends in `': '` — so the renderer keeps every
line; in particular a bare `rating:` line left by an empty placeholder is kept
in the output, contrary to the source's own comments and the spec. -/
theorem C1_cleanup_keeps_every_line :
    (∀ line : List Char, keepLine line = true) ∧
    format_template "title: {title}\nrating: {rating}"
        [("title", "Book"), ("rating", "")] = .ok "title: Book\nrating: " :=
  ⟨keepLine_eq_true, rfl⟩

/-! ## Claim C9 -/

theorem pyStripL_eq_nil (cs : List Char) (h : ∀ c ∈ cs, pyIsSpace c) :
    pyStripL cs = [] := by
  unfold pyStripL
  rw [List.dropWhile_eq_nil_iff.mpr h]
  rfl

/-- Claim C9: an empty or all-whitespace author string yields both name parts
empty (and, being a total function of the embedding, the parser cannot raise). -/
theorem C9_blank_author (s : String) (h : ∀ c ∈ s.data, pyIsSpace c) :
    parse_author_name s = ("", "") := by
  have hstrip : pyStripL s.data = [] := pyStripL_eq_nil s.data h
  have hcomma : s.data.contains ',' = false := by
    cases hx : s.data.contains ',' with
    | false => rfl
    | true =>
        have hmem : ',' ∈ s.data := by simpa using hx
        have := h ',' hmem
        simp [pyIsSpace] at this
  unfold parse_author_name
  rw [if_neg (by rw [hcomma]; exact Bool.false_ne_true)]
  simp only [hstrip, pySplitWs, splitWsGo, List.isEmpty_nil, if_true, List.length_nil,
    gt_iff_lt, Nat.lt_irrefl, if_false]
  rfl

theorem C9_blank_author_witness : parse_author_name "   " = ("", "") :=
  C9_blank_author "   " (by decide)

/-! ## Claim C10 -/

theorem mem_collapseWsGo (c : Char) :
    ∀ (cs : List Char) (b : Bool), c ∈ collapseWsGo cs b →
      c = '-' ∨ (pyIsSpace c = false ∧ c ∈ cs)
  | [], b, h => by simp [collapseWsGo] at h
  | d :: rest, b, h => by
      unfold collapseWsGo at h
      by_cases hd : pyIsSpace d
      · rw [if_pos hd] at h
        by_cases hb : b = true
        · rw [if_pos hb] at h
          rcases mem_collapseWsGo c rest true h with h1 | ⟨h2, h3⟩
          · exact Or.inl h1
          · exact Or.inr ⟨h2, List.mem_cons_of_mem _ h3⟩
        · rw [if_neg hb] at h
          rcases List.mem_cons.mp h with h1 | h1
          · exact Or.inl h1
          · rcases mem_collapseWsGo c rest true h1 with h2 | ⟨h2, h3⟩
            · exact Or.inl h2
            · exact Or.inr ⟨h2, List.mem_cons_of_mem _ h3⟩
      · rw [if_neg hd] at h
        rcases List.mem_cons.mp h with h1 | h1
        · subst h1
          exact Or.inr ⟨by simpa using hd, List.mem_cons_self _ _⟩
        · rcases mem_collapseWsGo c rest false h1 with h2 | ⟨h2, h3⟩
          · exact Or.inl h2
          · exact Or.inr ⟨h2, List.mem_cons_of_mem _ h3⟩

/-- Claim C10: every character of a slug is a word character or a hyphen, and
the slug neither starts nor ends with a hyphen. -/
theorem C10_slugify_chars (s : String) :
    (∀ c ∈ (slugify s).data, pyIsWord c = true ∨ c = '-') ∧
    (slugify s).data.head? ≠ some '-' ∧
    (slugify s).data.getLast? ≠ some '-' := by
  unfold slugify
  set lowered := s.data.map Char.toLower with hlow
  set kept := lowered.filter (fun c => pyIsWord c || pyIsSpace c || c = '-') with hkept
  set hyphened := collapseWsGo kept false with hhyp
  set A := hyphened.dropWhile (fun c => c = '-') with hA
  set B := A.reverse.dropWhile (fun c => c = '-') with hB
  refine ⟨?_, ?_, ?_⟩
  · intro c hc
    simp only [String.data] at hc
    have hc2 : c ∈ B := by simpa using hc
    have hc3 : c ∈ A.reverse := ((List.dropWhile_suffix _).subset) hc2
    have hc4 : c ∈ A := by simpa using hc3
    have hc5 : c ∈ hyphened := ((List.dropWhile_suffix _).subset) hc4
    rcases mem_collapseWsGo c kept false hc5 with h1 | ⟨h1, h2⟩
    · exact Or.inr h1
    · have := List.of_mem_filter h2
      rcases Bool.or_eq_true_iff.mp this with h3 | h3
      · rcases Bool.or_eq_true_iff.mp h3 with h4 | h4
        · exact Or.inl h4
        · rw [h4] at h1
          exact absurd h1 (by simp)
      · exact Or.inr (by simpa using h3)
  · simp only [String.data]
    rw [List.head?_reverse]
    cases hg : B.getLast? with
    | none => simp
    | some c =>
        obtain ⟨t, ht⟩ := List.dropWhile_suffix (l := A.reverse) (fun c => c = '-')
        have hBne : B ≠ [] := by
          intro hnil
          rw [hnil] at hg
          simp at hg
        have hg2 : A.reverse.getLast? = some c := by
          rw [← ht]
          rw [List.getLast?_append_of_ne_nil t hBne]
          exact hg
        rw [List.getLast?_reverse] at hg2
        have h3 := List.head?_dropWhile_not (fun c => c = '-') hyphened
        rw [hg2] at h3
        intro he
        rw [Option.some.inj he] at h3
        simp at h3
  · simp only [String.data]
    rw [List.getLast?_reverse]
    cases hg : B.head? with
    | none => simp
    | some c =>
        have h3 := List.head?_dropWhile_not (fun c => c = '-') A.reverse
        rw [hg] at h3
        intro he
        rw [Option.some.inj he] at h3
        simp at h3

/-! ## Claim C5 -/

theorem dropWhile_eq_self_of_all (p : Char → Bool) (l : List Char)
    (h : ∀ c ∈ l, p c = false) : l.dropWhile p = l := by
  cases l with
  | nil => rfl
  | cons c r =>
      exact List.dropWhile_cons_of_neg (by simp [h c (List.mem_cons_self c r)])

theorem pyStripL_eq_self_of_ends (l : List Char)
    (hh : ∀ c, l.head? = some c → pyIsSpace c = false)
    (hl : ∀ c, l.getLast? = some c → pyIsSpace c = false) : pyStripL l = l := by
  cases l with
  | nil => rfl
  | cons c r =>
      unfold pyStripL
      rw [List.dropWhile_cons_of_neg (by simp [hh c rfl])]
      cases hx : (c :: r).reverse with
      | nil => simp at hx
      | cons d rr =>
          have hd : (c :: r).getLast? = some d := by
            rw [← List.head?_reverse, hx]
            rfl
          rw [List.dropWhile_cons_of_neg (by simp [hl d hd]), ← hx,
            List.reverse_reverse]

theorem pyStripL_eq_self (t : List Char) (h : ∀ c ∈ t, pyIsSpace c = false) :
    pyStripL t = t := by
  unfold pyStripL
  rw [dropWhile_eq_self_of_all _ _ h,
    dropWhile_eq_self_of_all _ _ (fun c hc => h c (List.mem_reverse.mp hc)),
    List.reverse_reverse]

theorem pyStripL_idem (l : List Char) : pyStripL (pyStripL l) = pyStripL l :=
  pyStripL_eq_self_of_ends _ (pyStripL_head?_not_space l) (pyStripL_getLast?_not_space l)

theorem splitWsGo_eq_nil :
    ∀ (ds acc : List Char), splitWsGo ds acc = [] →
      acc = [] ∧ ∀ c ∈ ds, pyIsSpace c = true
  | [], acc, h => by
      unfold splitWsGo at h
      by_cases ha : acc.isEmpty
      · exact ⟨List.isEmpty_iff.mp ha, by simp⟩
      · rw [if_neg ha] at h
        simp at h
  | c :: rest, acc, h => by
      unfold splitWsGo at h
      by_cases hc : pyIsSpace c
      · rw [if_pos hc] at h
        by_cases ha : acc.isEmpty
        · rw [if_pos ha] at h
          obtain ⟨-, hrest⟩ := splitWsGo_eq_nil rest [] h
          refine ⟨List.isEmpty_iff.mp ha, ?_⟩
          intro d hd
          rcases List.mem_cons.mp hd with rfl | hm
          · exact hc
          · exact hrest d hm
        · rw [if_neg ha] at h
          simp at h
      · rw [if_neg hc] at h
        obtain ⟨habs, -⟩ := splitWsGo_eq_nil rest (c :: acc) h
        simp at habs

theorem splitWsGo_tokens :
    ∀ (ds acc : List Char), (∀ c ∈ acc, pyIsSpace c = false) →
      ∀ t ∈ splitWsGo ds acc, t ≠ [] ∧ ∀ c ∈ t, pyIsSpace c = false
  | [], acc, hacc, t, ht => by
      unfold splitWsGo at ht
      by_cases ha : acc.isEmpty
      · rw [if_pos ha] at ht
        simp at ht
      · rw [if_neg ha] at ht
        have heq : t = acc.reverse := by simpa using ht
        subst heq
        refine ⟨?_, ?_⟩
        · intro hnil
          rw [List.reverse_eq_nil_iff] at hnil
          rw [hnil] at ha
          simp at ha
        · intro c hc
          exact hacc c (List.mem_reverse.mp hc)
  | d :: rest, acc, hacc, t, ht => by
      unfold splitWsGo at ht
      by_cases hd : pyIsSpace d
      · rw [if_pos hd] at ht
        by_cases ha : acc.isEmpty
        · rw [if_pos ha] at ht
          exact splitWsGo_tokens rest [] (by simp) t ht
        · rw [if_neg ha] at ht
          rcases List.mem_cons.mp ht with heq | hm
          · subst heq
            refine ⟨?_, ?_⟩
            · intro hnil
              rw [List.reverse_eq_nil_iff] at hnil
              rw [hnil] at ha
              simp at ha
            · intro c hc
              exact hacc c (List.mem_reverse.mp hc)
          · exact splitWsGo_tokens rest [] (by simp) t hm
      · rw [if_neg hd] at ht
        refine splitWsGo_tokens rest (d :: acc) ?_ t ht
        intro c hc
        rcases List.mem_cons.mp hc with rfl | hm
        · simpa using hd
        · exact hacc c hm

theorem splitWsGo_singleton :
    ∀ (ds acc t : List Char), acc ≠ [] →
      (∀ d, (acc.reverse ++ ds).getLast? = some d → pyIsSpace d = false) →
      splitWsGo ds acc = [t] → t = acc.reverse ++ ds
  | [], acc, t, hne, hlast, h => by
      unfold splitWsGo at h
      rw [if_neg (by simpa using hne)] at h
      have heq : t = acc.reverse := by simpa using h.symm
      simp [heq]
  | c :: rest, acc, t, hne, hlast, h => by
      unfold splitWsGo at h
      by_cases hc : pyIsSpace c
      · exfalso
        rw [if_pos hc, if_neg (by simpa using hne)] at h
        have h2 : splitWsGo rest [] = [] := by
          cases hx : splitWsGo rest [] with
          | nil => rfl
          | cons a b =>
              rw [hx] at h
              simp at h
        obtain ⟨-, hallws⟩ := splitWsGo_eq_nil rest [] h2
        have hne2 : (c :: rest : List Char) ≠ [] := by simp
        obtain ⟨d, hd⟩ := Option.isSome_iff_exists.mp
          (by rw [List.getLast?_eq_getLast_of_ne_nil hne2]; rfl :
            (c :: rest).getLast?.isSome = true)
        have hlast2 : (acc.reverse ++ c :: rest).getLast? = some d := by
          rw [List.getLast?_append_of_ne_nil _ hne2]
          exact hd
        have hdns := hlast d hlast2
        have hdmem : d ∈ c :: rest := by
          obtain ⟨hne3, heq⟩ := List.mem_getLast?_eq_getLast (by rw [hd]; rfl)
          rw [heq]
          exact List.getLast_mem hne3
        rcases List.mem_cons.mp hdmem with rfl | hm
        · rw [hc] at hdns
          simp at hdns
        · rw [hallws d hm] at hdns
          simp at hdns
      · rw [if_neg hc] at h
        have hrec := splitWsGo_singleton rest (c :: acc) t (by simp) ?_ h
        · rw [hrec]
          simp
        · intro d hd
          apply hlast
          rw [show acc.reverse ++ c :: rest = (c :: acc).reverse ++ rest by simp]
          exact hd

theorem pySplitWs_singleton_of_strip (l t : List Char)
    (h : pySplitWs (pyStripL l) = [t]) : pyStripL l = t := by
  cases hx : pyStripL l with
  | nil =>
      rw [hx] at h
      simp [pySplitWs, splitWsGo] at h
  | cons c rest =>
      have hc : pyIsSpace c = false := by
        apply pyStripL_head?_not_space l
        rw [hx]
        rfl
      rw [hx] at h
      unfold pySplitWs splitWsGo at h
      rw [if_neg (by simp [hc])] at h
      have := splitWsGo_singleton rest [c] t (by simp) ?_ h
      · rw [this]
        simp
      · intro d hd
        apply pyStripL_getLast?_not_space l
        rw [hx]
        simpa using hd

theorem joinCh_sp_ne_nil :
    ∀ (ts : List (List Char)), ts ≠ [] → (∀ t ∈ ts, t ≠ []) → joinCh ' ' ts ≠ []
  | [], h, _ => absurd rfl h
  | [t], _, hall => by simpa [joinCh] using hall t (by simp)
  | t :: t2 :: rest, _, hall => by
      show t ++ ' ' :: joinCh ' ' (t2 :: rest) ≠ []
      simp

theorem joinCh_sp_head_not_space :
    ∀ (ts : List (List Char)),
      (∀ t ∈ ts, t ≠ [] ∧ ∀ c ∈ t, pyIsSpace c = false) →
      ∀ c, (joinCh ' ' ts).head? = some c → pyIsSpace c = false
  | [], _, c, hc => by simp [joinCh] at hc
  | [t], hall, c, hc => by
      have hmem : c ∈ t := by
        have : t.head? = some c := hc
        exact List.mem_of_mem_head? this
      exact (hall t (by simp)).2 c hmem
  | t :: t2 :: rest, hall, c, hc => by
      have hne : t ≠ [] := (hall t (by simp)).1
      have hc2 : t.head? = some c := by
        have : (t ++ ' ' :: joinCh ' ' (t2 :: rest)).head? = some c := hc
        rw [List.head?_append] at this
        cases hx : t.head? with
        | none => exact absurd (List.head?_eq_none_iff.mp hx) hne
        | some d =>
            rw [hx] at this
            simpa using this
      exact (hall t (by simp)).2 c (List.mem_of_mem_head? hc2)

theorem joinCh_sp_getLast_not_space :
    ∀ (ts : List (List Char)),
      (∀ t ∈ ts, t ≠ [] ∧ ∀ c ∈ t, pyIsSpace c = false) →
      ∀ c, (joinCh ' ' ts).getLast? = some c → pyIsSpace c = false
  | [], _, c, hc => by simp [joinCh] at hc
  | [t], hall, c, hc => by
      have hc2 : t.getLast? = some c := hc
      obtain ⟨hne3, heq⟩ := List.mem_getLast?_eq_getLast (by rw [hc2]; rfl)
      exact (hall t (by simp)).2 c (by rw [heq]; exact List.getLast_mem hne3)
  | t :: t2 :: rest, hall, c, hc => by
      have hjoin_ne : joinCh ' ' (t2 :: rest) ≠ [] :=
        joinCh_sp_ne_nil (t2 :: rest) (by simp) (fun u hu => (hall u (by simp [hu])).1)
      have hc2 : (joinCh ' ' (t2 :: rest)).getLast? = some c := by
        have h0 : (t ++ ' ' :: joinCh ' ' (t2 :: rest)).getLast? = some c := hc
        rw [List.getLast?_append_of_ne_nil _ (by simp : (' ' :: joinCh ' ' (t2 :: rest) : List Char) ≠ [])] at h0
        rw [show (' ' :: joinCh ' ' (t2 :: rest) : List Char) = [' '] ++ joinCh ' ' (t2 :: rest) by rfl,
          List.getLast?_append_of_ne_nil _ hjoin_ne] at h0
        exact h0
      exact joinCh_sp_getLast_not_space (t2 :: rest)
        (fun u hu => hall u (by simp [List.mem_cons.mp hu])) c hc2

/-- Claim C5: `parse_author_name` splits on the first comma when present (left
part trimmed is the last name, right part trimmed the first name), otherwise on
whitespace (more than one token: last token is the last name and the preceding
tokens joined by single spaces the first name; exactly one token: that token is
the last name with empty first name), and the given examples hold. -/
theorem C5_author_name_cases :
    parse_author_name "Doe, Jane" = ("Doe", "Jane") ∧
    parse_author_name "Jane Marie Doe" = ("Doe", "Jane Marie") ∧
    parse_author_name "Plato" = ("Plato", "") ∧
    (∀ (s : String) (l r : List Char), ',' ∉ l → s.data = l ++ ',' :: r →
       parse_author_name s = (String.mk (pyStripL l), String.mk (pyStripL r))) ∧
    (∀ (s : String) (t : List Char), s.data.contains ',' = false →
       pySplitWs (pyStripL s.data) = [t] →
       parse_author_name s = (String.mk t, "")) ∧
    (∀ (s : String) (init : List (List Char)) (t : List Char),
       s.data.contains ',' = false →
       pySplitWs (pyStripL s.data) = init ++ [t] → 1 < (init ++ [t]).length →
       parse_author_name s = (String.mk t, String.mk (joinCh ' ' init))) := by
  refine ⟨by decide, by decide, by decide, ?_, ?_, ?_⟩
  · intro s l r hl hdata
    have hp : ∀ a ∈ l, (fun c => c ≠ ',' : Char → Bool) a = true := by
      intro a ha
      simp only [ne_eq, decide_eq_true_eq]
      intro heq
      exact hl (heq ▸ ha)
    have hcond : s.data.contains ',' = true := by
      rw [hdata]
      simp
    have h1 : s.data.takeWhile (fun c => c ≠ ',') = l := by
      rw [hdata, List.takeWhile_append_of_pos hp,
        List.takeWhile_cons_of_neg (by simp), List.append_nil]
    have h2 : (s.data.dropWhile (fun c => c ≠ ',')).tail = r := by
      rw [hdata, List.dropWhile_append_of_pos hp,
        List.dropWhile_cons_of_neg (by simp)]
      rfl
    unfold parse_author_name
    rw [if_pos hcond]
    simp only [h1, h2, pyStripL_idem]
  · intro s t hcomma hsingle
    unfold parse_author_name
    rw [if_neg (by rw [hcomma]; exact Bool.false_ne_true)]
    simp only [hsingle, List.length_singleton, gt_iff_lt, Nat.lt_irrefl, if_false]
    rw [pySplitWs_singleton_of_strip s.data t hsingle]
  · intro s init t hcomma htoks hlen
    have htfree : ∀ u ∈ init ++ [t], u ≠ [] ∧ ∀ c ∈ u, pyIsSpace c = false := by
      intro u hu
      rw [← htoks] at hu
      exact splitWsGo_tokens (pyStripL s.data) [] (by simp) u hu
    unfold parse_author_name
    rw [if_neg (by rw [hcomma]; exact Bool.false_ne_true)]
    simp only [htoks, if_pos hlen, lastD, List.getLast?_concat, Option.getD_some,
      List.dropLast_concat]
    have e1 : pyStripL t = t := pyStripL_eq_self t (htfree t (by simp)).2
    have e2 : pyStripL (joinCh ' ' init) = joinCh ' ' init := by
      cases init with
      | nil => rfl
      | cons i0 irest =>
          apply pyStripL_eq_self_of_ends
          · exact joinCh_sp_head_not_space (i0 :: irest)
              (fun u hu => htfree u (List.mem_append_left _ hu))
          · exact joinCh_sp_getLast_not_space (i0 :: irest)
              (fun u hu => htfree u (List.mem_append_left _ hu))
    rw [e1, e2]

theorem C5_author_name_witness : parse_author_name "  Plato  " = ("Plato", "") :=
  C5_author_name_cases.2.2.2.2.1 "  Plato  " "Plato".data (by decide) (by decide)

/-! ## Claim C7 -/

theorem lookupKV_map_keyfix (f : String × String → String × String)
    (hf : ∀ p, (f p).1 = p.1) (m : List (String × String)) (k : String) :
    (lookupKV (m.map f) k).isSome = (lookupKV m k).isSome := by
  induction m with
  | nil => rfl
  | cons kv rest ih =>
      simp only [List.map_cons]
      unfold lookupKV
      rw [hf kv]
      by_cases hk : kv.1 = k
      · rw [if_pos hk, if_pos hk]
        rfl
      · rw [if_neg hk, if_neg hk]
        exact ih

theorem lookupKV_preprocess (m : List (String × String)) (k : String) :
    (lookupKV (preprocessKwargs m) k).isSome = (lookupKV m k).isSome := by
  refine lookupKV_map_keyfix _ ?_ m k
  intro p
  by_cases h1 : p.1 = "page" ∧ p.2 ≠ ""
  · simp [h1]
  · by_cases h2 : p.1 = "time" ∧ p.2 ≠ ""
    · simp [h1, h2]
    · simp [h1, h2]

theorem bool_eq_false (b : Bool) (h : ¬ b = true) : b = false := by
  cases b
  · rfl
  · exact absurd rfl h

theorem ite_bool_true {α : Sort _} (c : Bool) (h : c = true) (a b : α) :
    (if c = true then a else b) = a := by
  rw [h]
  simp

theorem ite_bool_false {α : Sort _} (c : Bool) (h : c = false) (a b : α) :
    (if c = true then a else b) = b := by
  rw [h]
  simp

/-- When the template scans as a sequence of plain named fields, rendering
succeeds exactly when every referenced name is supplied, and a missing name
raises the KeyError. -/
theorem scan_format_agree (m : List (String × String)) :
    ∀ (cs : List Char) (st : Option (List Char)) (names : List String),
      scanNamesGo cs st = some names →
      (if names.all (fun n => (lookupKV m n).isSome) then
        ∃ out, pyFormatGo m cs st = .ok out
      else pyFormatGo m cs st = .error .keyError)
  | [], none, names, h => by
      have hn : names = [] := by
        simpa [scanNamesGo] using h.symm
      subst hn
      simp [pyFormatGo]
  | [], some acc, names, h => by simp [scanNamesGo] at h
  | c :: rest, none, names, h => by
      rw [scanNamesGo.eq_def] at h
      rw [pyFormatGo.eq_def]
      by_cases hc : c = '{'
      · subst hc
        simp only [eq_self_iff_true, if_true] at h ⊢
        cases rest with
        | nil => simp at h
        | cons c2 rest2 =>
            by_cases hc2 : c2 = '{'
            · subst hc2
              simp only [eq_self_iff_true, if_true] at h ⊢
              have ih := scan_format_agree m rest2 none names h
              cases hall : names.all (fun n => (lookupKV m n).isSome) with
              | true =>
                  rw [ite_bool_true _ hall] at ih
                  rw [ite_bool_true _ rfl]
                  obtain ⟨out, hout⟩ := ih
                  exact ⟨'{' :: out, by rw [hout]; rfl⟩
              | false =>
                  rw [ite_bool_false _ hall] at ih
                  rw [ite_bool_false _ rfl]
                  rw [ih]
                  rfl
            · simp only [if_neg hc2] at h ⊢
              exact scan_format_agree m (c2 :: rest2) (some []) names h
      · by_cases hcr : c = '}'
        · subst hcr
          simp only [if_neg hc, eq_self_iff_true, if_true] at h ⊢
          cases rest with
          | nil => simp at h
          | cons c2 rest2 =>
              by_cases hc2 : c2 = '}'
              · subst hc2
                simp only [eq_self_iff_true, if_true] at h ⊢
                have ih := scan_format_agree m rest2 none names h
                cases hall : names.all (fun n => (lookupKV m n).isSome) with
                | true =>
                    rw [ite_bool_true _ hall] at ih
                    rw [ite_bool_true _ rfl]
                    obtain ⟨out, hout⟩ := ih
                    exact ⟨'}' :: out, by rw [hout]; rfl⟩
                | false =>
                    rw [ite_bool_false _ hall] at ih
                    rw [ite_bool_false _ rfl]
                    rw [ih]
                    rfl
              · simp only [if_neg hc2] at h
                simp at h
        · simp only [if_neg hc, if_neg hcr] at h ⊢
          have ih := scan_format_agree m rest none names h
          cases hall : names.all (fun n => (lookupKV m n).isSome) with
          | true =>
              rw [ite_bool_true _ hall] at ih
              rw [ite_bool_true _ rfl]
              obtain ⟨out, hout⟩ := ih
              exact ⟨c :: out, by rw [hout]; rfl⟩
          | false =>
              rw [ite_bool_false _ hall] at ih
              rw [ite_bool_false _ rfl]
              rw [ih]
              rfl
  | c :: rest, some acc, names, h => by
      rw [scanNamesGo.eq_def] at h
      rw [pyFormatGo.eq_def]
      by_cases hc : c = '}'
      · subst hc
        simp only [eq_self_iff_true, if_true] at h ⊢
        by_cases hg : acc.contains '{' ∨ acc.reverse ≠ fieldArgName acc.reverse ∨
            (fieldArgName acc.reverse).isEmpty ∨ (fieldArgName acc.reverse).all pyIsDigit
        · rw [if_pos hg] at h
          simp at h
        · rw [if_neg hg] at h
          push_neg at hg
          obtain ⟨hg1, hg2, hg3, hg4⟩ := hg
          obtain ⟨names2, hn2, hncons⟩ := Option.map_eq_some'.mp h
          subst hncons
          have ih := scan_format_agree m rest none names2 hn2
          have hgd : ¬((fieldArgName acc.reverse).isEmpty = true ∨
              (fieldArgName acc.reverse).all pyIsDigit = true) := by
            rintro (h3 | h4)
            · exact hg3 h3
            · exact hg4 h4
          rw [ite_bool_false _ (bool_eq_false _ hg1), if_neg hgd, ← hg2]
          cases hlk : lookupKV m (String.mk acc.reverse) with
          | none =>
              have hfalse : ((String.mk acc.reverse :: names2).all
                  (fun n => (lookupKV m n).isSome)) = false := by
                simp only [List.all_cons, hlk]
                simp
              rw [ite_bool_false _ hfalse]
          | some v =>
              have hcons : ((String.mk acc.reverse :: names2).all
                  (fun n => (lookupKV m n).isSome)) =
                  names2.all (fun n => (lookupKV m n).isSome) := by
                simp only [List.all_cons, hlk]
                simp
              rw [hcons]
              cases hall : names2.all (fun n => (lookupKV m n).isSome) with
              | true =>
                  rw [ite_bool_true _ rfl]
                  rw [ite_bool_true _ hall] at ih
                  obtain ⟨out, hout⟩ := ih
                  refine ⟨v.data ++ out, ?_⟩
                  show (if acc.reverse = acc.reverse then
                      (fun r => v.data ++ r) <$> pyFormatGo m rest none
                    else Except.error FmtErr.valueError) = _
                  rw [if_pos rfl, hout]
                  rfl
              | false =>
                  rw [ite_bool_false _ rfl]
                  rw [ite_bool_false _ hall] at ih
                  show (if acc.reverse = acc.reverse then
                      (fun r => v.data ++ r) <$> pyFormatGo m rest none
                    else Except.error FmtErr.valueError) = _
                  rw [if_pos rfl, ih]
                  rfl
      · simp only [if_neg hc] at h ⊢
        exact scan_format_agree m rest (some (c :: acc)) names h

/-- Claim C7: if a structurally well-formed template references a placeholder
name with no supplied value, `format_template` does not fail — it returns the
template text unmodified. -/
theorem C7_missing_placeholder (template : String) (kwargs : List (String × String))
    (names : List String) (hscan : scanNames template = some names)
    (n : String) (hn : n ∈ names) (hmiss : lookupKV kwargs n = none) :
    format_template template kwargs = .ok template := by
  have hall : names.all (fun x => (lookupKV (preprocessKwargs kwargs) x).isSome) = false := by
    rw [List.all_eq_false]
    refine ⟨n, hn, ?_⟩
    rw [lookupKV_preprocess, hmiss]
    simp
  have hkey := scan_format_agree (preprocessKwargs kwargs) template.data none names hscan
  rw [hall, ite_bool_false _ rfl] at hkey
  unfold format_template
  rw [hkey]

theorem C7_missing_placeholder_witness :
    format_template "a {missing} b" [("title", "Book")] = .ok "a {missing} b" :=
  C7_missing_placeholder "a {missing} b" [("title", "Book")] ["missing"]
    (by decide) "missing" (by decide) (by decide)

/-! ## Claim C8 -/

theorem lookupKV_append (a b : List (String × String)) (k : String) :
    lookupKV (a ++ b) k = (lookupKV a k).or (lookupKV b k) := by
  induction a with
  | nil => rfl
  | cons kv rest ih =>
      simp only [List.cons_append]
      show (if kv.1 = k then some kv.2 else lookupKV (rest ++ b) k) =
        (if kv.1 = k then some kv.2 else lookupKV rest k).or (lookupKV b k)
      by_cases hk : kv.1 = k
      · rw [if_pos hk, if_pos hk]
        rfl
      · rw [if_neg hk, if_neg hk]
        exact ih

theorem lookupKV_eq_none_of_no_key (m : List (String × String)) (k : String)
    (h : ∀ p ∈ m, p.1 ≠ k) : lookupKV m k = none := by
  induction m with
  | nil => rfl
  | cons kv rest ih =>
      unfold lookupKV
      rw [if_neg (h kv (List.mem_cons_self kv rest))]
      exact ih (fun p hp => h p (List.mem_cons_of_mem kv hp))

theorem lookupKV_map_replace_ne (kv : String × String) (k : String) (hk : kv.1 ≠ k) :
    ∀ (m : List (String × String)),
      lookupKV (m.map (fun p => if p.1 = kv.1 then kv else p)) k = lookupKV m k
  | [] => rfl
  | p :: rest => by
      simp only [List.map_cons]
      by_cases hp : p.1 = kv.1
      · rw [if_pos hp]
        unfold lookupKV
        rw [if_neg hk, if_neg (by rw [hp]; exact hk)]
        exact lookupKV_map_replace_ne kv k hk rest
      · rw [if_neg hp]
        unfold lookupKV
        by_cases hpk : p.1 = k
        · rw [if_pos hpk, if_pos hpk]
        · rw [if_neg hpk, if_neg hpk]
          exact lookupKV_map_replace_ne kv k hk rest

theorem lookupKV_map_replace (kv : String × String) (k : String) :
    ∀ (m : List (String × String)), m.any (fun p => p.1 = kv.1) →
      lookupKV (m.map (fun p => if p.1 = kv.1 then kv else p)) k =
        (if kv.1 = k then some kv.2 else lookupKV m k)
  | [], hany => by simp at hany
  | p :: rest, hany => by
      simp only [List.map_cons]
      by_cases hp : p.1 = kv.1
      · rw [if_pos hp]
        unfold lookupKV
        by_cases hk : kv.1 = k
        · rw [if_pos hk, if_pos hk]
        · rw [if_neg hk, if_neg hk, if_neg (by rw [hp]; exact hk)]
          exact lookupKV_map_replace_ne kv k hk rest
      · rw [if_neg hp]
        have hrest : rest.any (fun p => p.1 = kv.1) = true := by
          simp only [List.any_cons] at hany
          rcases Bool.or_eq_true_iff.mp hany with h1 | h1
          · exact absurd (by simpa using h1) hp
          · exact h1
        unfold lookupKV
        by_cases hpk : p.1 = k
        · rw [if_pos hpk, if_pos hpk]
          rw [if_neg (by rw [← hpk]; intro he; exact hp he.symm)]
        · rw [if_neg hpk, if_neg hpk]
          exact lookupKV_map_replace kv k rest hrest

theorem lookupKV_dictInsert (base : List (String × String)) (kv : String × String)
    (k : String) :
    lookupKV (dictInsert base kv) k =
      (if kv.1 = k then some kv.2 else lookupKV base k) := by
  unfold dictInsert
  by_cases hany : base.any (fun p => p.1 = kv.1)
  · rw [if_pos hany]
    exact lookupKV_map_replace kv k base hany
  · rw [if_neg hany]
    rw [lookupKV_append]
    by_cases hk : kv.1 = k
    · rw [if_pos hk]
      have hnone : lookupKV base k = none := by
        apply lookupKV_eq_none_of_no_key
        intro p hp he
        apply hany
        rw [List.any_eq_true]
        exact ⟨p, hp, by simp [he, hk]⟩
      rw [hnone]
      unfold lookupKV
      rw [if_pos hk]
      rfl
    · rw [if_neg hk]
      have : lookupKV [kv] k = none := by
        unfold lookupKV
        rw [if_neg hk]
        rfl
      rw [this]
      cases lookupKV base k <;> rfl

theorem lookupKV_dictUpdate :
    ∀ (upd base : List (String × String)) (k : String),
      lookupKV (dictUpdate base upd) k =
        (lookupKV upd.reverse k).or (lookupKV base k)
  | [], base, k => by
      show lookupKV base k = (lookupKV (List.reverse []) k).or (lookupKV base k)
      cases lookupKV base k <;> rfl
  | kv :: rest, base, k => by
      show lookupKV (dictUpdate (dictInsert base kv) rest) k = _
      rw [lookupKV_dictUpdate rest (dictInsert base kv) k, lookupKV_dictInsert,
        List.reverse_cons, lookupKV_append]
      cases lookupKV rest.reverse k with
      | some v => rfl
      | none =>
          show (if kv.1 = k then some kv.2 else lookupKV base k) =
            (lookupKV [kv] k).or (lookupKV base k)
          by_cases hk : kv.1 = k
          · rw [if_pos hk]
            show _ = (if kv.1 = k then some kv.2 else lookupKV ([] : List (String × String)) k).or _
            rw [if_pos hk]
            rfl
          · rw [if_neg hk]
            show _ = (if kv.1 = k then some kv.2 else lookupKV ([] : List (String × String)) k).or _
            rw [if_neg hk]
            cases lookupKV base k <;> rfl

/-- Claim C8: rendering with a missing or malformed configuration file yields
exactly the output of the built-in defaults, and a configuration that does load
is merged key-by-key inside each of the two sections — for every key, the last
user-supplied binding wins and an unsupplied key falls back to the default
binding — so neither section is ever replaced wholesale. -/
theorem C8_config_merge :
    (∀ (now : NowClock) (meta : Metadata),
      generate_markdown now meta (load_config .missing) =
        generate_markdown now meta DEFAULT_CONFIG ∧
      generate_markdown now meta (load_config .malformed) =
        generate_markdown now meta DEFAULT_CONFIG) ∧
    (∀ (out tpl : Option (List (String × String))) (k : String),
      lookupKV (load_config (.parsed out tpl)).templates k =
        ((lookupKV (tpl.getD []).reverse k).or
          (lookupKV DEFAULT_CONFIG.templates k)) ∧
      lookupKV (load_config (.parsed out tpl)).output k =
        ((lookupKV (out.getD []).reverse k).or
          (lookupKV DEFAULT_CONFIG.output k))) := by
  refine ⟨fun now meta => ⟨rfl, rfl⟩, fun out tpl k => ⟨?_, ?_⟩⟩
  · exact lookupKV_dictUpdate _ _ k
  · exact lookupKV_dictUpdate _ _ k

/-! ## Claim C2 -/

theorem except_bind_ok {α β : Type} (x : α) (f : α → Except Unit β) :
    (Except.ok x >>= f : Except Unit β) = f x := rfl

theorem except_bind_error {α β : Type} (e : Unit) (f : α → Except Unit β) :
    ((Except.error e : Except Unit α) >>= f) = (Except.error e : Except Unit β) := rfl

theorem except_map_ok {α β : Type} (f : α → β) (x : α) :
    (f <$> (Except.ok x : Except Unit α)) = Except.ok (f x) := rfl

theorem except_map_error {α β : Type} (f : α → β) (e : Unit) :
    (f <$> (Except.error e : Except Unit α)) = (Except.error e : Except Unit β) := rfl

theorem except_pure {α : Type} (x : α) :
    (pure x : Except Unit α) = Except.ok x := rfl

theorem exceptMapM_length {α β : Type} (f : α → Except Unit β) :
    ∀ (l : List α) (bs : List β), l.mapM f = .ok bs → bs.length = l.length
  | [], bs, h => by
      simp only [List.mapM_nil] at h
      have : bs = [] := by
        cases bs with
        | nil => rfl
        | cons b r => simp [pure, Except.pure] at h
      simp [this]
  | a :: rest, bs, h => by
      rw [List.mapM_cons] at h
      cases hfa : f a with
      | error e =>
          rw [hfa, except_bind_error] at h
          simp at h
      | ok b =>
          rw [hfa, except_bind_ok] at h
          cases hrest : rest.mapM f with
          | error e =>
              rw [hrest, except_bind_error] at h
              simp at h
          | ok brest =>
              rw [hrest, except_bind_ok] at h
              have hb : bs = b :: brest := by
                cases bs with
                | nil => simp [pure, Except.pure] at h
                | cons b2 r2 =>
                    simp only [pure, Except.pure, Except.ok.injEq] at h
                    rw [← h]
              subst hb
              simp only [List.length_cons]
              rw [exceptMapM_length f rest brest hrest]

/-- The highlight loop renders exactly the qualifying bookmarks, in iteration
order, concatenating one block per bookmark. -/
theorem highlightsContent_eq (config : Config) :
    ∀ l : List Bookmark,
      highlightsContent config l =
        concatAll <$> (l.filter (fun b => qualifies b)).mapM (blockFor config)
  | [] => rfl
  | b :: rest => by
      unfold highlightsContent
      by_cases hq : qualifies b
      · rw [if_pos hq, List.filter_cons_of_pos (by simpa using hq), List.mapM_cons]
        cases hb : blockFor config b with
        | error e => simp only [except_bind_error, except_map_error]
        | ok x =>
            simp only [except_bind_ok]
            rw [highlightsContent_eq config rest]
            cases hmm : (rest.filter (fun b => qualifies b)).mapM (blockFor config) with
            | error e =>
                simp only [except_map_error, except_bind_error]
            | ok xs =>
                simp only [except_map_ok, except_bind_ok, except_pure]
                rfl
      · rw [if_neg hq, List.filter_cons_of_neg (by simpa using hq)]
        simp only [except_pure, except_bind_ok]
        rw [highlightsContent_eq config rest]
        cases hmm : (rest.filter (fun b => qualifies b)).mapM (blockFor config) with
        | error e =>
            simp only [except_map_error, except_bind_error]
        | ok xs =>
            simp only [except_map_ok, except_bind_ok, except_pure]
            rfl
  termination_by l => l.length

/-- Inverting a successful `generate_markdown` run into its three rendered
components and the returned timestamp. -/
theorem generate_markdown_ok_inv (now : NowClock) (meta : Metadata) (config : Config)
    (md ts : String) (h : generate_markdown now meta config = .ok (md, ts)) :
    ∃ fm iw hc,
      renderFrontmatter now meta config = .ok fm ∧
      renderIntro meta config = .ok iw ∧
      highlightsContent config meta.bookmarks.reverse = .ok hc ∧
      md = fm ++ iw ++ "\n\n" ++ String.mk (pyStripL hc.data) ∧
      ts = timestampOf now meta.bookmarks := by
  unfold generate_markdown at h
  cases hfm : renderFrontmatter now meta config with
  | error e =>
      rw [hfm, except_bind_error] at h
      simp at h
  | ok fm =>
      rw [hfm, except_bind_ok] at h
      cases hiw : renderIntro meta config with
      | error e =>
          rw [hiw, except_bind_error] at h
          simp at h
      | ok iw =>
          rw [hiw, except_bind_ok] at h
          cases hhc : highlightsContent config meta.bookmarks.reverse with
          | error e =>
              rw [hhc, except_bind_error] at h
              simp at h
          | ok hc =>
              rw [hhc, except_bind_ok] at h
              simp only [pure, Except.pure, Except.ok.injEq, Prod.mk.injEq] at h
              exact ⟨fm, iw, hc, rfl, rfl, rfl, h.1.symm, h.2.symm⟩

/-- Claim C2: a successful `generate_markdown` run renders exactly one
highlight block per bookmark whose `notes` is present and non-blank, those
blocks appear in reverse of the source bookmark order after the front matter
and intro, and bookmarks with absent or blank `notes` contribute nothing and do
not change the number of blocks. -/
theorem C2_highlight_blocks (now : NowClock) (meta : Metadata) (config : Config)
    (md ts : String) (h : generate_markdown now meta config = .ok (md, ts)) :
    ∃ fm iw blocks,
      renderFrontmatter now meta config = .ok fm ∧
      renderIntro meta config = .ok iw ∧
      ((meta.bookmarks.filter (fun b => qualifies b)).reverse).mapM
        (blockFor config) = .ok blocks ∧
      blocks.length = (meta.bookmarks.filter (fun b => qualifies b)).length ∧
      md = fm ++ iw ++ "\n\n" ++ String.mk (pyStripL (concatAll blocks).data) := by
  obtain ⟨fm, iw, hcv, hfm, hiw, hhc, hmd, -⟩ :=
    generate_markdown_ok_inv now meta config md ts h
  have heq := highlightsContent_eq config meta.bookmarks.reverse
  rw [hhc] at heq
  cases hmm : (meta.bookmarks.reverse.filter (fun b => qualifies b)).mapM
      (blockFor config) with
  | error e =>
      rw [hmm, except_map_error] at heq
      simp at heq
  | ok blocks =>
      rw [hmm, except_map_ok] at heq
      have hcv2 : hcv = concatAll blocks := by
        simpa using heq
      refine ⟨fm, iw, blocks, hfm, hiw, ?_, ?_, ?_⟩
      · rw [← List.filter_reverse]
        exact hmm
      · have hlen := exceptMapM_length (blockFor config) _ _ hmm
        rw [hlen, List.filter_reverse, List.length_reverse]
      · rw [hmd, hcv2]

theorem C2_highlight_blocks_witness :
    ∃ fm iw blocks,
      renderFrontmatter nowCex metaC2 DEFAULT_CONFIG = .ok fm ∧
      renderIntro metaC2 DEFAULT_CONFIG = .ok iw ∧
      ((metaC2.bookmarks.filter (fun b => qualifies b)).reverse).mapM
        (blockFor DEFAULT_CONFIG) = .ok blocks ∧
      blocks.length = (metaC2.bookmarks.filter (fun b => qualifies b)).length ∧
      "---\ntags: [buch, gelesen, highlights]\ntitle: Sample Book\nauthor: Doe, Jane2023-01-01\n---\n\nHighlights für das Buch Sample Book von Jane Doe\n\n> Second highlight\n\nEigener Gedanke (Seite 10): my thought @ 2023-01-02 03:04:00\n\n---\n\n> First highlight\n\n---" =
        fm ++ iw ++ "\n\n" ++ String.mk (pyStripL (concatAll blocks).data) :=
  C2_highlight_blocks nowCex metaC2 DEFAULT_CONFIG _ "2301011000" (by rfl)

/-! ## Claim C4 -/

/-- Claim C4 (amended): `created_at` and `updated_at` are the datetimes of the
first and last bookmark, chosen purely positionally; the returned filename
timestamp is `timestampOf`, which depends only on the first bookmark, and it is
the current wall-clock string exactly when the collection is empty or the first
bookmark's `datetime` is absent, empty or unparseable — regardless of any
usable datetime on a later bookmark. -/
theorem C4_timestamps (now : NowClock) (meta : Metadata) (config : Config)
    (md ts : String) (h : generate_markdown now meta config = .ok (md, ts)) :
    ts = timestampOf now meta.bookmarks ∧
    created_at_of meta.bookmarks = meta.bookmarks.head?.bind Bookmark.datetime ∧
    updated_at_of meta.bookmarks = meta.bookmarks.getLast?.bind Bookmark.datetime ∧
    (∀ b rest rest2, meta.bookmarks = b :: rest →
       timestampOf now (b :: rest2) = ts) ∧
    (meta.bookmarks = [] → ts = now.ymdhm) ∧
    (∀ b rest, meta.bookmarks = b :: rest →
       (b.datetime = none → ts = now.ymdhm) ∧
       (∀ dt, b.datetime = some dt →
          (pyStrptime dt.data = none → ts = now.ymdhm) ∧
          (∀ y mo d hh mi s2, pyStrptime dt.data = some (y, mo, d, hh, mi, s2) →
             ts = String.mk (pad2 (y % 100) ++ pad2 mo ++ pad2 d ++
               pad2 hh ++ pad2 mi)))) := by
  obtain ⟨-, -, -, -, -, -, -, hts⟩ := generate_markdown_ok_inv now meta config md ts h
  subst hts
  refine ⟨rfl, ?_, ?_, ?_, ?_, ?_⟩
  · cases meta.bookmarks <;> rfl
  · unfold updated_at_of
    cases meta.bookmarks.getLast? <;> rfl
  · intro b rest rest2 hbk
    rw [hbk]
    rfl
  · intro hbk
    rw [hbk]
    rfl
  · intro b rest hbk
    rw [hbk]
    constructor
    · intro hdt
      unfold timestampOf created_at_of
      simp only [List.head?_cons, hdt]
    · intro dt hdt
      constructor
      · intro hps
        unfold timestampOf created_at_of
        simp only [List.head?_cons, hdt]
        by_cases hne : dt ≠ ""
        · rw [if_pos hne]
          unfold parse_bookmark_datetime
          rw [hps]
        · rw [if_neg hne]
      · intro y mo d hh mi s2 hps
        have hne : dt ≠ "" := by
          intro he
          rw [he] at hps
          simp [pyStrptime, parseYear4] at hps
        unfold timestampOf created_at_of
        simp only [List.head?_cons, hdt]
        rw [if_pos hne]
        unfold parse_bookmark_datetime
        rw [hps]

theorem C4_timestamps_witness : "NOWTS" = timestampOf nowCex metaC4.bookmarks :=
  (C4_timestamps nowCex metaC4 DEFAULT_CONFIG _ "NOWTS" (by rfl)).1

/-- Claim C4 counterexample: in `metaC4` the last bookmark carries the
perfectly usable datetime `2023-07-04 08:15:00` (which would render as
`2307040815`), yet the generated filename timestamp is the wall-clock fallback
`NOWTS` because the first bookmark has no datetime — refuting "falls back
exactly when no bookmark with a usable datetime exists at all". -/
theorem C4_fallback_counterexample :
    (generate_markdown nowCex metaC4 DEFAULT_CONFIG).map Prod.snd = .ok "NOWTS" ∧
    metaC4.bookmarks.any
      (fun b => ((b.datetime.map (fun d => (pyStrptime d.data).isSome)).getD false)) = true ∧
    parse_bookmark_datetime "NOWTS" "2023-07-04 08:15:00" = "2307040815" :=
  ⟨by rfl, by decide, by decide⟩

/-! ## Claim C6 -/

theorem pyIsDigit_digitChar (k : Nat) (h : k < 10) :
    pyIsDigit (digitChar k) = true := by
  interval_cases k <;> decide

theorem digitVal_digitChar (k : Nat) (h : k < 10) :
    digitVal (digitChar k) = k := by
  interval_cases k <;> decide

theorem pyIsSpace_digitChar (k : Nat) (h : k < 10) :
    pyIsSpace (digitChar k) = false := by
  interval_cases k <;> decide

theorem daysInMonth_le_31 (y m : Nat) : daysInMonth y m ≤ 31 := by
  unfold daysInMonth
  split
  · split <;> omega
  · split <;> omega

theorem parseYear4_pad4 (y : Nat) (hy : y ≤ 9999) (rest : List Char) :
    parseYear4 (pad4 y ++ rest) = some (y, rest) := by
  have h1 : pyIsDigit (digitChar (y / 1000 % 10)) = true :=
    pyIsDigit_digitChar _ (by omega)
  have h2 : pyIsDigit (digitChar (y / 100 % 10)) = true :=
    pyIsDigit_digitChar _ (by omega)
  have h3 : pyIsDigit (digitChar (y / 10 % 10)) = true :=
    pyIsDigit_digitChar _ (by omega)
  have h4 : pyIsDigit (digitChar (y % 10)) = true :=
    pyIsDigit_digitChar _ (by omega)
  show (if pyIsDigit (digitChar (y / 1000 % 10)) ∧ pyIsDigit (digitChar (y / 100 % 10)) ∧
        pyIsDigit (digitChar (y / 10 % 10)) ∧ pyIsDigit (digitChar (y % 10)) then
      some (((digitVal (digitChar (y / 1000 % 10)) * 10 +
        digitVal (digitChar (y / 100 % 10))) * 10 +
        digitVal (digitChar (y / 10 % 10))) * 10 + digitVal (digitChar (y % 10)), rest)
    else none) = some (y, rest)
  rw [if_pos ⟨h1, h2, h3, h4⟩]
  have hv : ((digitVal (digitChar (y / 1000 % 10)) * 10 +
      digitVal (digitChar (y / 100 % 10))) * 10 +
      digitVal (digitChar (y / 10 % 10))) * 10 + digitVal (digitChar (y % 10)) = y := by
    rw [digitVal_digitChar _ (by omega : y / 1000 % 10 < 10),
        digitVal_digitChar _ (by omega : y / 100 % 10 < 10),
        digitVal_digitChar _ (by omega : y / 10 % 10 < 10),
        digitVal_digitChar _ (by omega : y % 10 < 10)]
    omega
  rw [hv]

theorem parseMonth_pad2 (mo : Nat) (h1 : 1 ≤ mo) (h2 : mo ≤ 12) (rest : List Char) :
    parseMonth (pad2 mo ++ rest) = some (mo, rest) := by
  interval_cases mo <;> rfl

theorem parseDay_pad2 (d : Nat) (h1 : 1 ≤ d) (h2 : d ≤ 31) (rest : List Char) :
    parseDay (pad2 d ++ rest) = some (d, rest) := by
  interval_cases d <;> rfl

theorem parseHour_pad2 (h : Nat) (h2 : h ≤ 23) (rest : List Char) :
    parseHour (pad2 h ++ rest) = some (h, rest) := by
  interval_cases h <;> rfl

theorem parseMinute_pad2 (mi : Nat) (h2 : mi ≤ 59) (rest : List Char) :
    parseMinute (pad2 mi ++ rest) = some (mi, rest) := by
  interval_cases mi <;> rfl

theorem parseSecond_pad2 (s : Nat) (h2 : s ≤ 59) (rest : List Char) :
    parseSecond (pad2 s ++ rest) = some (s, rest) := by
  interval_cases s <;> rfl

theorem parseSecond_pad2_nil (s : Nat) (h2 : s ≤ 59) :
    parseSecond (pad2 s) = some (s, []) := by
  have h := parseSecond_pad2 s h2 []
  simpa using h

theorem expectCh_self (c : Char) (rest : List Char) :
    expectCh c (c :: rest) = some rest := by
  simp [expectCh]

theorem expectWs_pad2 (n : Nat) (rest : List Char) :
    expectWs (' ' :: (pad2 n ++ rest)) = some (pad2 n ++ rest) := by
  have hk : ¬ (pyIsSpace (digitChar (n / 10 % 10)) = true) := by
    rw [pyIsSpace_digitChar _ (by omega : n / 10 % 10 < 10)]
    simp
  show some ((digitChar (n / 10 % 10) :: (digitChar (n % 10) :: rest)).dropWhile
      pyIsSpace) = some (pad2 n ++ rest)
  rw [List.dropWhile_cons_of_neg hk]
  rfl

theorem option_bind_some {α β : Type} (a : α) (f : α → Option β) :
    ((some a : Option α) >>= f) = f a := rfl

theorem pyStrptime_render (y mo d h mi s : Nat)
    (hy1 : 1 ≤ y) (hy2 : y ≤ 9999) (hmo1 : 1 ≤ mo) (hmo2 : mo ≤ 12)
    (hd1 : 1 ≤ d) (hd2 : d ≤ daysInMonth y mo) (hh : h ≤ 23) (hmi : mi ≤ 59)
    (hs : s ≤ 59) :
    pyStrptime (renderYmdHms y mo d h mi s) = some (y, mo, d, h, mi, s) := by
  have hd31 : d ≤ 31 := le_trans hd2 (daysInMonth_le_31 y mo)
  unfold pyStrptime renderYmdHms
  simp only [parseYear4_pad4 y hy2, option_bind_some, expectCh_self,
    parseMonth_pad2 mo hmo1 hmo2, parseDay_pad2 d hd1 hd31, expectWs_pad2,
    parseHour_pad2 h hh, parseMinute_pad2 mi hmi, parseSecond_pad2_nil s hs]
  rw [if_pos ⟨trivial, hy1, hd2, hs⟩]

/-- Claim C6 (amended): on a strictly padded, calendar-valid
`YYYY-MM-DD HH:MM:SS` input the filename-timestamp normalizer yields
`YYMMDDHHMM` and the calendar-date normalizer yields `YYYY-MM-DD` (hence the two
spec examples), and whenever `strptime` rejects an input both return the
pre-rendered wall-clock string instead of failing; but the set of accepted
inputs is decided by `strptime`, which also accepts unpadded fields and rejects
shape-conforming but calendar-invalid strings, so acceptance does not coincide
with the literal `YYYY-MM-DD HH:MM:SS` shape. -/
theorem C6_date_normalizers (nowTs nowDate : String) (y mo d h mi s : Nat)
    (hy1 : 1 ≤ y) (hy2 : y ≤ 9999) (hmo1 : 1 ≤ mo) (hmo2 : mo ≤ 12)
    (hd1 : 1 ≤ d) (hd2 : d ≤ daysInMonth y mo) (hh : h ≤ 23) (hmi : mi ≤ 59)
    (hs : s ≤ 59) :
    parse_bookmark_datetime nowTs (String.mk (renderYmdHms y mo d h mi s)) =
      String.mk (pad2 (y % 100) ++ pad2 mo ++ pad2 d ++ pad2 h ++ pad2 mi) ∧
    format_date_for_yaml nowDate (String.mk (renderYmdHms y mo d h mi s)) =
      String.mk (pad4 y ++ '-' :: pad2 mo ++ '-' :: pad2 d) ∧
    parse_bookmark_datetime nowTs "2023-07-04 08:15:00" = "2307040815" ∧
    format_date_for_yaml nowDate "2023-07-04 08:15:00" = "2023-07-04" ∧
    (∀ str : String, pyStrptime str.data = none →
      parse_bookmark_datetime nowTs str = nowTs ∧
      format_date_for_yaml nowDate str = nowDate) := by
  have key : pyStrptime (String.mk (renderYmdHms y mo d h mi s)).data =
      some (y, mo, d, h, mi, s) :=
    pyStrptime_render y mo d h mi s hy1 hy2 hmo1 hmo2 hd1 hd2 hh hmi hs
  refine ⟨?_, ?_, rfl, rfl, ?_⟩
  · unfold parse_bookmark_datetime
    rw [key]
  · unfold format_date_for_yaml
    rw [key]
  · intro str hn
    unfold parse_bookmark_datetime format_date_for_yaml
    rw [hn]
    exact ⟨rfl, rfl⟩

theorem C6_date_normalizers_witness :
    parse_bookmark_datetime "NOW" (String.mk (renderYmdHms 2023 7 4 8 15 0)) =
      String.mk (pad2 (2023 % 100) ++ pad2 7 ++ pad2 4 ++ pad2 8 ++ pad2 15) :=
  (C6_date_normalizers "NOW" "NOWDATE" 2023 7 4 8 15 0 (by decide) (by decide)
    (by decide) (by decide) (by decide) (by decide) (by decide) (by decide)
    (by decide)).1

/-- Claim C6 counterexample: `2023-7-4 8:15:00` is not in the literal
`YYYY-MM-DD HH:MM:SS` shape, yet neither normalizer falls back on it — they
return `2307040815` and `2023-07-04`; conversely `2023-13-01 00:00:00` is in
that shape yet falls back.  This refutes "for every input string not matching
that format, both fall back". -/
theorem C6_shape_counterexample :
    isSpecYmdHms "2023-7-4 8:15:00".data = false ∧
    parse_bookmark_datetime "NOW" "2023-7-4 8:15:00" = "2307040815" ∧
    format_date_for_yaml "NOWDATE" "2023-7-4 8:15:00" = "2023-07-04" ∧
    isSpecYmdHms "2023-13-01 00:00:00".data = true ∧
    parse_bookmark_datetime "NOW" "2023-13-01 00:00:00" = "NOW" :=
  ⟨by rfl, by rfl, by rfl, by rfl, by rfl⟩

/-! ## Claim C3 -/

theorem pyIsDigit_eq_false_of_space (c : Char) (h : pyIsSpace c = true) :
    pyIsDigit c = false := by
  unfold pyIsSpace at h
  simp only [Bool.or_eq_true, decide_eq_true_eq] at h
  rcases h with ((((h | h) | h) | h) | h) | h <;> subst h <;> decide

theorem pyIsSpace_eq_false_of_digit (c : Char) (h : pyIsDigit c = true) :
    pyIsSpace c = false := by
  cases hs : pyIsSpace c with
  | false => rfl
  | true => rw [pyIsDigit_eq_false_of_space c hs] at h; simp at h

theorem takeWhile_all_append (p : Char → Bool) (l1 l2 : List Char)
    (h1 : ∀ c ∈ l1, p c = true) (h2 : ∀ c, l2.head? = some c → p c = false) :
    (l1 ++ l2).takeWhile p = l1 := by
  rw [List.takeWhile_append_of_pos h1]
  have he : l2.takeWhile p = [] := by
    cases l2 with
    | nil => rfl
    | cons a l =>
        rw [List.takeWhile_cons_of_neg]
        simp [h2 a rfl]
  rw [he, List.append_nil]

theorem dropWhile_all_append (p : Char → Bool) (l1 l2 : List Char)
    (h1 : ∀ c ∈ l1, p c = true) (h2 : ∀ c, l2.head? = some c → p c = false) :
    (l1 ++ l2).dropWhile p = l2 := by
  rw [List.dropWhile_append_of_pos h1]
  cases l2 with
  | nil => rfl
  | cons a l =>
      rw [List.dropWhile_cons_of_neg]
      simp [h2 a rfl]

theorem matchSuffixTs_sound (t ts : List Char) (h : matchSuffixTs t = some ts) :
    ∃ w1 w2, t = w1 ++ '@' :: (w2 ++ ts) ∧ w1 ≠ [] ∧
      (∀ c ∈ w1, pyIsSpace c = true) ∧ w2 ≠ [] ∧
      (∀ c ∈ w2, pyIsSpace c = true) ∧ isDateTimeGroup ts = true := by
  unfold matchSuffixTs at h
  by_cases h1 : t.takeWhile pyIsSpace = []
  · rw [if_pos h1] at h
    simp at h
  · rw [if_neg h1] at h
    split at h
    · rename_i r2 heq
      by_cases h2 : r2.takeWhile pyIsSpace = []
      · rw [if_pos h2] at h
        simp at h
      · rw [if_neg h2] at h
        have h' : (if isDateTimeGroup (r2.dropWhile pyIsSpace) then
            some (r2.dropWhile pyIsSpace) else none) = some ts := h
        by_cases h3 : isDateTimeGroup (r2.dropWhile pyIsSpace) = true
        · rw [if_pos h3] at h'
          have hts : r2.dropWhile pyIsSpace = ts := Option.some.inj h'
          refine ⟨t.takeWhile pyIsSpace, r2.takeWhile pyIsSpace, ?_, h1, ?_, h2, ?_, ?_⟩
          · calc t = t.takeWhile pyIsSpace ++ t.dropWhile pyIsSpace :=
                  (List.takeWhile_append_dropWhile pyIsSpace t).symm
              _ = t.takeWhile pyIsSpace ++ ('@' :: r2) := by rw [heq]
              _ = t.takeWhile pyIsSpace ++
                  ('@' :: (r2.takeWhile pyIsSpace ++ r2.dropWhile pyIsSpace)) := by
                  rw [List.takeWhile_append_dropWhile]
              _ = t.takeWhile pyIsSpace ++
                  ('@' :: (r2.takeWhile pyIsSpace ++ ts)) := by rw [hts]
          · intro c hc
            exact List.mem_takeWhile_imp hc
          · intro c hc
            exact List.mem_takeWhile_imp hc
          · rw [← hts]
            exact h3
        · rw [if_neg h3] at h'
          simp at h'
    · simp at h

theorem findSplit_sound : ∀ (cs pre ts : List Char), findSplit cs = some (pre, ts) →
    ∃ w1 w2, cs = pre ++ (w1 ++ '@' :: (w2 ++ ts)) ∧ w1 ≠ [] ∧
      (∀ c ∈ w1, pyIsSpace c = true) ∧ w2 ≠ [] ∧
      (∀ c ∈ w2, pyIsSpace c = true) ∧ isDateTimeGroup ts = true
  | [], pre, ts, h => by simp [findSplit] at h
  | c :: rest, pre, ts, h => by
      simp only [findSplit] at h
      cases hf : findSplit rest with
      | some pt =>
          obtain ⟨pre0, ts0⟩ := pt
          rw [hf] at h
          have h2 : some (c :: pre0, ts0) = some (pre, ts) := h
          cases h2
          obtain ⟨w1, w2, heq, hw1n, hw1, hw2n, hw2, hdt⟩ :=
            findSplit_sound rest pre0 _ hf
          exact ⟨w1, w2, by rw [List.cons_append, heq], hw1n, hw1, hw2n, hw2, hdt⟩
      | none =>
          rw [hf] at h
          cases hm : matchSuffixTs (c :: rest) with
          | some ts1 =>
              rw [hm] at h
              have h2 : some (([] : List Char), ts1) = some (pre, ts) := h
              cases h2
              obtain ⟨w1, w2, heq, hw1n, hw1, hw2n, hw2, hdt⟩ :=
                matchSuffixTs_sound (c :: rest) _ hm
              exact ⟨w1, w2, heq, hw1n, hw1, hw2n, hw2, hdt⟩
          | none =>
              rw [hm] at h
              have h2 : (none : Option (List Char × List Char)) = some (pre, ts) := h
              simp at h2

theorem pageMatch_decompose (ws1 ds ws2 rest0 : List Char)
    (hw1n : ws1 ≠ []) (hw1 : ∀ c ∈ ws1, pyIsSpace c = true)
    (hdn : ds ≠ []) (hd : ∀ c ∈ ds, pyIsDigit c = true)
    (hw2n : ws2 ≠ []) (hw2 : ∀ c ∈ ws2, pyIsSpace c = true)
    (hr : ∀ c, rest0.head? = some c → pyIsSpace c = false) :
    pageMatch ('P' :: 'a' :: 'g' :: 'e' :: (ws1 ++ (ds ++ (ws2 ++ rest0)))) =
      some (ds, rest0.takeWhile (fun c => c ≠ '\n')) := by
  obtain ⟨d0, ds', rfl⟩ := List.exists_cons_of_ne_nil hdn
  obtain ⟨w0, ws2', rfl⟩ := List.exists_cons_of_ne_nil hw2n
  have hdhead : ∀ c, ((d0 :: ds') ++ ((w0 :: ws2') ++ rest0)).head? = some c →
      pyIsSpace c = false := by
    intro c hc
    have hc2 : some d0 = some c := hc
    cases hc2
    exact pyIsSpace_eq_false_of_digit d0 (hd d0 (List.mem_cons_self d0 ds'))
  have hwhead : ∀ c, ((w0 :: ws2') ++ rest0).head? = some c → pyIsDigit c = false := by
    intro c hc
    have hc2 : some w0 = some c := hc
    cases hc2
    exact pyIsDigit_eq_false_of_space w0 (hw2 w0 (List.mem_cons_self w0 ws2'))
  have hT1 : (ws1 ++ ((d0 :: ds') ++ ((w0 :: ws2') ++ rest0))).takeWhile pyIsSpace =
      ws1 := takeWhile_all_append pyIsSpace ws1 _ hw1 hdhead
  have hD1 : (ws1 ++ ((d0 :: ds') ++ ((w0 :: ws2') ++ rest0))).dropWhile pyIsSpace =
      (d0 :: ds') ++ ((w0 :: ws2') ++ rest0) :=
    dropWhile_all_append pyIsSpace ws1 _ hw1 hdhead
  have hT2 : ((d0 :: ds') ++ ((w0 :: ws2') ++ rest0)).takeWhile pyIsDigit =
      d0 :: ds' := takeWhile_all_append pyIsDigit (d0 :: ds') _ hd hwhead
  have hD2 : ((d0 :: ds') ++ ((w0 :: ws2') ++ rest0)).dropWhile pyIsDigit =
      (w0 :: ws2') ++ rest0 := dropWhile_all_append pyIsDigit (d0 :: ds') _ hd hwhead
  have hT3 : ((w0 :: ws2') ++ rest0).takeWhile pyIsSpace = w0 :: ws2' :=
    takeWhile_all_append pyIsSpace (w0 :: ws2') rest0 hw2 hr
  have hD3 : ((w0 :: ws2') ++ rest0).dropWhile pyIsSpace = rest0 :=
    dropWhile_all_append pyIsSpace (w0 :: ws2') rest0 hw2 hr
  show (if (ws1 ++ ((d0 :: ds') ++ ((w0 :: ws2') ++ rest0))).takeWhile pyIsSpace = []
      then none
      else if ((ws1 ++ ((d0 :: ds') ++ ((w0 :: ws2') ++
          rest0))).dropWhile pyIsSpace).takeWhile pyIsDigit = [] then none
      else if (((ws1 ++ ((d0 :: ds') ++ ((w0 :: ws2') ++
          rest0))).dropWhile pyIsSpace).dropWhile pyIsDigit).takeWhile pyIsSpace = []
        then none
      else some (((ws1 ++ ((d0 :: ds') ++ ((w0 :: ws2') ++
          rest0))).dropWhile pyIsSpace).takeWhile pyIsDigit,
        ((((ws1 ++ ((d0 :: ds') ++ ((w0 :: ws2') ++
          rest0))).dropWhile pyIsSpace).dropWhile pyIsDigit).dropWhile
            pyIsSpace).takeWhile (fun c => c ≠ '\n'))) =
    some (d0 :: ds', rest0.takeWhile (fun c => c ≠ '\n'))
  rw [hT1, hD1, hT2, hD2, hT3, hD3]
  rw [if_neg hw1n, if_neg hdn, if_neg (by simp : ¬(w0 :: ws2' = []))]

/-- Claim C3 (amended): the annotation parser never fails: when the input does
not start with `Page` + whitespace + digits + whitespace the whole input passes
through verbatim as `text`; when it does, `page` is the digit group, but the
captured remainder stops at the first newline rather than covering the rest of
the input, and a trailing `@`-separated `YYYY-MM-DD HH:MM:SS` suffix of that
truncated remainder, when present, is stripped into `timestamp` with the
strip-trimmed prefix as `text` (the strip-trimmed remainder alone when absent).
Both spec examples hold. -/
theorem C3_annotation_parts (s : String) :
    parse_annotation_text "Page 42 a sharp insight @ 2023-07-04 08:15:00" =
      ⟨"42", "a sharp insight", "2023-07-04 08:15:00"⟩ ∧
    parse_annotation_text "no page info here" = ⟨"", "no page info here", ""⟩ ∧
    (pageMatch s.data = none → parse_annotation_text s = ⟨"", s, ""⟩) ∧
    (∀ ws1 ds ws2 rest0 : List Char,
       ws1 ≠ [] → (∀ c ∈ ws1, pyIsSpace c = true) →
       ds ≠ [] → (∀ c ∈ ds, pyIsDigit c = true) →
       ws2 ≠ [] → (∀ c ∈ ws2, pyIsSpace c = true) →
       (∀ c, rest0.head? = some c → pyIsSpace c = false) →
       pageMatch ("Page".data ++ (ws1 ++ (ds ++ (ws2 ++ rest0)))) =
         some (ds, rest0.takeWhile (fun c => c ≠ '\n'))) ∧
    (∀ ds rem, pageMatch s.data = some (ds, rem) →
       (findSplit rem = none →
          parse_annotation_text s = ⟨String.mk ds, String.mk (pyStripL rem), ""⟩) ∧
       (∀ pre ts, findSplit rem = some (pre, ts) →
          parse_annotation_text s =
            ⟨String.mk ds, String.mk (pyStripL pre), String.mk ts⟩ ∧
          ∃ w1 w2, rem = pre ++ (w1 ++ '@' :: (w2 ++ ts)) ∧ w1 ≠ [] ∧
            (∀ c ∈ w1, pyIsSpace c = true) ∧ w2 ≠ [] ∧
            (∀ c ∈ w2, pyIsSpace c = true) ∧ isDateTimeGroup ts = true)) := by
  refine ⟨by rfl, by rfl, ?_, ?_, ?_⟩
  · intro hpm
    unfold parse_annotation_text
    rw [hpm]
  · intro ws1 ds ws2 rest0 hw1n hw1 hdn hd hw2n hw2 hr
    exact pageMatch_decompose ws1 ds ws2 rest0 hw1n hw1 hdn hd hw2n hw2 hr
  · intro ds rem hpm
    constructor
    · intro hfs
      unfold parse_annotation_text
      rw [hpm]
      show (match findSplit rem with
        | some (pre, ts) => (⟨String.mk ds, String.mk (pyStripL pre), String.mk ts⟩ :
            AnnotationParts)
        | none => ⟨String.mk ds, String.mk (pyStripL rem), ""⟩) =
        ⟨String.mk ds, String.mk (pyStripL rem), ""⟩
      rw [hfs]
    · intro pre ts hfs
      constructor
      · unfold parse_annotation_text
        rw [hpm]
        show (match findSplit rem with
          | some (pre, ts) => (⟨String.mk ds, String.mk (pyStripL pre), String.mk ts⟩ :
              AnnotationParts)
          | none => ⟨String.mk ds, String.mk (pyStripL rem), ""⟩) =
          ⟨String.mk ds, String.mk (pyStripL pre), String.mk ts⟩
        rw [hfs]
      · exact findSplit_sound rem pre ts hfs

theorem C3_annotation_parts_witness :
    pageMatch "no page info here".data = none ∧
    parse_annotation_text "no page info here" = ⟨"", "no page info here", ""⟩ :=
  ⟨by rfl, (C3_annotation_parts "no page info here").2.2.1 (by rfl)⟩

/-- Claim C3 counterexample: the capture group `(.*)` of the page pattern stops
at a newline, so for `Page 1 a\nb` the text is the truncated `a`, not the full
remainder `a\nb` the claim's "remainder" wording promises. -/
theorem C3_newline_counterexample :
    parse_annotation_text "Page 1 a\nb" = ⟨"1", "a", ""⟩ ∧
    (parse_annotation_text "Page 1 a\nb").text ≠ "a\nb" :=
  ⟨by rfl, by decide⟩

end Koreader
